import Mathlib

/-!
Verification of the market-data conflation pipeline of the
`Trading-Desktop-Rust` repository (files
`src/frontend/src-tauri/src/market/pipeline.rs`,
`src/frontend/src-tauri/src/market/types.rs`,
`src/frontend/src-tauri/src/market/binance.rs`).

Shallow embedding conventions:
* Rust `f64` prices, quantities and volumes are embedded as `ℚ`
  (exact arithmetic; the source never relies on float rounding in the
  properties treated here).
* Rust `u64` values are embedded as `Nat` together with explicit
  saturation at `2 ^ 64 - 1` where the source uses `saturating_add`.
* Rust `i64` values are embedded as `Int` together with explicit
  saturation at the `i64` bounds where the source uses `saturating_*`
  operations; Rust's truncating integer division `/` is `Int.tdiv`.
* `std::time::Instant` is embedded as an abstract `Nat` timestamp;
  `Instant::saturating_duration_since` becomes truncating `Nat`
  subtraction.
* Rust `String` (for symbol validation) is embedded as `List Nat` of
  Unicode scalar values.
-/

namespace MarketPipeline

/-- `u64::MAX` (`2 ^ 64 - 1`). -/
def u64Max : Nat := 18446744073709551615

/-- Rust `u64::saturating_add`. -/
def u64SatAdd (a b : Nat) : Nat := min (a + b) u64Max

/-- `i64::MIN` (`-2 ^ 63`). -/
def i64Min : Int := -9223372036854775808

/-- `i64::MAX` (`2 ^ 63 - 1`). -/
def i64Max : Int := 9223372036854775807

/-- Clamp an unbounded integer into the `i64` range, the common step of the
Rust `i64::saturating_*` operations. -/
def i64Clamp (x : Int) : Int := max i64Min (min i64Max x)

/-- Rust `i64::saturating_sub`. -/
def i64SatSub (a b : Int) : Int := i64Clamp (a - b)

/-- Rust `i64::saturating_add`. -/
def i64SatAdd (a b : Int) : Int := i64Clamp (a + b)

/-- Rust `i64::saturating_mul`. -/
def i64SatMul (a b : Int) : Int := i64Clamp (a * b)

/-- Rust `i64::clamp(lo, hi)` (for `lo ≤ hi`): `min(max(x, lo), hi)`. -/
def i64RangeClamp (x lo hi : Int) : Int := min hi (max lo x)

/-- `MarketTimeframe` from `types.rs`. -/
inductive MarketTimeframe where
  | M1
  | M5
  | H1
  | H4
  | D1
  | W1
  | Mo1
  deriving DecidableEq

/-- `MarketTimeframe::duration_ms` from `types.rs`. -/
def MarketTimeframe.duration_ms : MarketTimeframe → Int
  | .M1 => 60000
  | .M5 => 300000
  | .H1 => 3600000
  | .H4 => 14400000
  | .D1 => 86400000
  | .W1 => 604800000
  | .Mo1 => 2592000000

/-- `UiTick` from `types.rs`. -/
structure UiTick where
  t : Int
  p : ℚ
  v : ℚ
  d : Int
  deriving DecidableEq

/-- `UiCandle` from `types.rs`. -/
structure UiCandle where
  t : Int
  o : ℚ
  h : ℚ
  l : ℚ
  c : ℚ
  v : ℚ
  deriving DecidableEq

/-- `UiCandle::from_trade` from `types.rs`. -/
def UiCandle.from_trade (bucket_open_time : Int) (price quantity : ℚ) : UiCandle :=
  { t := bucket_open_time
    o := price
    h := price
    l := price
    c := price
    v := quantity }

/-- `UiCandle::apply_trade` from `types.rs` (returns the mutated candle). -/
def UiCandle.apply_trade (self : UiCandle) (price quantity : ℚ) : UiCandle :=
  { self with
    h := max self.h price
    l := min self.l price
    c := price
    v := self.v + quantity }

/-- `UiDeltaCandle` from `types.rs`. -/
structure UiDeltaCandle where
  t : Int
  o : ℚ
  h : ℚ
  l : ℚ
  c : ℚ
  v : ℚ
  deriving DecidableEq

/-- `UiDeltaCandle::from_signed_volume` from `types.rs`. -/
def UiDeltaCandle.from_signed_volume (bucket_open_time : Int)
    (signed_volume absolute_volume : ℚ) : UiDeltaCandle :=
  { t := bucket_open_time
    o := 0
    h := max 0 signed_volume
    l := min 0 signed_volume
    c := signed_volume
    v := max absolute_volume 0 }

/-- `UiDeltaCandle::apply_signed_volume` from `types.rs` (returns the mutated
candle; note the source updates `c` first and then `h`/`l` from the new `c`). -/
def UiDeltaCandle.apply_signed_volume (self : UiDeltaCandle)
    (signed_volume absolute_volume : ℚ) : UiDeltaCandle :=
  { self with
    h := max self.h (self.c + signed_volume)
    l := min self.l (self.c + signed_volume)
    c := self.c + signed_volume
    v := self.v + max absolute_volume 0 }

/-- `UiMarketFrameUpdate` from `types.rs`. -/
structure UiMarketFrameUpdate where
  tick : Option UiTick
  candle : Option UiCandle
  delta_candle : Option UiDeltaCandle
  local_pipeline_latency_ms : Option Int
  deriving DecidableEq

/-- `AggTradeEvent` from `types.rs`. -/
structure AggTradeEvent where
  event_time : Int
  aggregate_trade_id : Nat
  price : ℚ
  quantity : ℚ
  trade_time : Int
  is_buyer_maker : Bool
  deriving DecidableEq

/-- `AggTradeEvent::direction` (via `direction_from_is_buyer_maker`) from
`types.rs`. -/
def AggTradeEvent.direction (self : AggTradeEvent) : Int :=
  if self.is_buyer_maker then -1 else 1

/-- `AggTradeEvent::notional` from `types.rs`. -/
def AggTradeEvent.notional (self : AggTradeEvent) : ℚ :=
  self.price * self.quantity

/-- `ConflatedMarketState` from `pipeline.rs`. -/
structure ConflatedMarketState where
  last_agg_id : Option Nat
  last_price : Option ℚ
  last_latency_ms : Option Int
  pending_price : Option ℚ
  pending_volume : ℚ
  pending_direction : Int
  pending_time : Int
  pending_ingest_started_at : Option Nat
  last_candle : Option UiCandle
  pending_candle : Option UiCandle
  last_delta_candle : Option UiDeltaCandle
  pending_delta_candle : Option UiDeltaCandle
  deriving DecidableEq

/-- `ConflatedMarketState::default()` (the derived Rust `Default`). -/
def ConflatedMarketState.default : ConflatedMarketState :=
  { last_agg_id := none
    last_price := none
    last_latency_ms := none
    pending_price := none
    pending_volume := 0
    pending_direction := 0
    pending_time := 0
    pending_ingest_started_at := none
    last_candle := none
    pending_candle := none
    last_delta_candle := none
    pending_delta_candle := none }

/-- `TradeApplyOutcome` from `pipeline.rs`. -/
inductive TradeApplyOutcome where
  | Applied (eligible_for_ui : Bool)
  | GapDetected (expected found : Nat)
  | Stale (current last : Nat)
  deriving DecidableEq

/-- `candle_bucket_open_time` from `pipeline.rs` (`rem_euclid` is `Int.emod`). -/
def candle_bucket_open_time (timestamp_ms timeframe_ms : Int) : Int :=
  if timeframe_ms ≤ 0 then timestamp_ms
  else timestamp_ms - timestamp_ms.emod timeframe_ms

/-- `update_candle_from_trade` from `pipeline.rs`. -/
def update_candle_from_trade (state : ConflatedMarketState) (trade : AggTradeEvent)
    (timeframe : MarketTimeframe) : ConflatedMarketState :=
  let timeframe_ms := timeframe.duration_ms
  let bucket_open := candle_bucket_open_time trade.trade_time timeframe_ms
  match state.last_candle with
  | some current =>
    if bucket_open < current.t then state
    else if bucket_open = current.t then
      let updated := current.apply_trade trade.price trade.quantity
      { state with last_candle := some updated, pending_candle := some updated }
    else
      let next := UiCandle.from_trade bucket_open trade.price trade.quantity
      { state with pending_candle := some next, last_candle := some next }
  | none =>
    let next := UiCandle.from_trade bucket_open trade.price trade.quantity
    { state with pending_candle := some next, last_candle := some next }

/-- `update_delta_candle_from_trade` from `pipeline.rs`. -/
def update_delta_candle_from_trade (state : ConflatedMarketState)
    (trade : AggTradeEvent) (timeframe : MarketTimeframe) : ConflatedMarketState :=
  let timeframe_ms := timeframe.duration_ms
  let bucket_open := candle_bucket_open_time trade.trade_time timeframe_ms
  let signed_volume := trade.quantity * (trade.direction : ℚ)
  let absolute_volume := trade.quantity
  match state.last_delta_candle with
  | some current =>
    if bucket_open < current.t then state
    else if bucket_open = current.t then
      let updated := current.apply_signed_volume signed_volume absolute_volume
      { state with
        last_delta_candle := some updated
        pending_delta_candle := some updated }
    else
      let next := UiDeltaCandle.from_signed_volume bucket_open signed_volume
        absolute_volume
      { state with
        pending_delta_candle := some next
        last_delta_candle := some next }
  | none =>
    let next := UiDeltaCandle.from_signed_volume bucket_open signed_volume
      absolute_volume
    { state with
      pending_delta_candle := some next
      last_delta_candle := some next }

/-- The tail of `apply_trade_event` from `pipeline.rs` after the stale/gap
guards (lines 363-382 of the source: the unconditional mutations and the
notional filter). -/
def apply_trade_event_mutate (state : ConflatedMarketState) (trade : AggTradeEvent)
    (min_notional_usdt : ℚ) (timeframe : MarketTimeframe) (now_unix_ms : Int)
    (ingest_started_at : Nat) : ConflatedMarketState × TradeApplyOutcome :=
  let s1 := { state with
    last_agg_id := some trade.aggregate_trade_id
    last_price := some trade.price
    last_latency_ms := some (max (i64SatSub now_unix_ms trade.event_time) 0) }
  let s2 := update_candle_from_trade s1 trade timeframe
  let s3 := update_delta_candle_from_trade s2 trade timeframe
  let s4 := { s3 with pending_ingest_started_at := some ingest_started_at }
  if trade.notional ≥ min_notional_usdt then
    ({ s4 with
        pending_price := some trade.price
        pending_volume := s4.pending_volume + trade.quantity
        pending_direction := trade.direction
        pending_time := trade.trade_time },
      .Applied true)
  else
    (s4, .Applied false)

/-- `apply_trade_event` from `pipeline.rs`; the Rust function mutates `state`
and returns a `TradeApplyOutcome`, here it returns the pair. -/
def apply_trade_event (state : ConflatedMarketState) (trade : AggTradeEvent)
    (min_notional_usdt : ℚ) (timeframe : MarketTimeframe) (now_unix_ms : Int)
    (ingest_started_at : Nat) : ConflatedMarketState × TradeApplyOutcome :=
  match state.last_agg_id with
  | some last_agg_id =>
    if trade.aggregate_trade_id ≤ last_agg_id then
      (state, .Stale trade.aggregate_trade_id last_agg_id)
    else
      let expected := u64SatAdd last_agg_id 1
      if trade.aggregate_trade_id ≠ expected then
        (state, .GapDetected expected trade.aggregate_trade_id)
      else
        apply_trade_event_mutate state trade min_notional_usdt timeframe
          now_unix_ms ingest_started_at
  | none =>
    apply_trade_event_mutate state trade min_notional_usdt timeframe
      now_unix_ms ingest_started_at

/-- `apply_history_snapshot` from `pipeline.rs`. -/
def apply_history_snapshot (state : ConflatedMarketState)
    (candles : List UiCandle) : ConflatedMarketState :=
  match candles.getLast? with
  | some last_candle =>
    let should_replace :=
      match state.last_candle with
      | some current => decide (current.t ≤ last_candle.t)
      | none => true
    if should_replace then
      { state with
        last_candle := some last_candle
        last_price := some last_candle.c }
    else state
  | none => state

/-- `apply_delta_history_snapshot` from `pipeline.rs`. -/
def apply_delta_history_snapshot (state : ConflatedMarketState)
    (candles : List UiDeltaCandle) : ConflatedMarketState :=
  match candles.getLast? with
  | some last_candle =>
    let should_replace :=
      match state.last_delta_candle with
      | some current => decide (current.t ≤ last_candle.t)
      | none => true
    if should_replace then
      { state with last_delta_candle := some last_candle }
    else state
  | none => state

/-- `apply_snapshot` from `pipeline.rs`. -/
def apply_snapshot (state : ConflatedMarketState) (aggregate_trade_id : Nat)
    (price : ℚ) : ConflatedMarketState :=
  { state with
    last_agg_id := some aggregate_trade_id
    last_price := some price
    pending_price := none
    pending_volume := 0
    pending_direction := 0
    pending_time := 0
    pending_ingest_started_at := none }

/-- `drain_ui_tick` from `pipeline.rs` (state out, drained tick out). -/
def drain_ui_tick (state : ConflatedMarketState) :
    ConflatedMarketState × Option UiTick :=
  match state.pending_price with
  | none => (state, none)
  | some pending_price =>
    ({ state with
        pending_price := none
        pending_volume := 0
        pending_direction := 0
        pending_time := 0 },
      some { t := state.pending_time
             p := pending_price
             v := state.pending_volume
             d := state.pending_direction })

/-- `drain_ui_candle` from `pipeline.rs`. -/
def drain_ui_candle (state : ConflatedMarketState) :
    ConflatedMarketState × Option UiCandle :=
  ({ state with pending_candle := none }, state.pending_candle)

/-- `drain_ui_delta_candle` from `pipeline.rs`. -/
def drain_ui_delta_candle (state : ConflatedMarketState) :
    ConflatedMarketState × Option UiDeltaCandle :=
  ({ state with pending_delta_candle := none }, state.pending_delta_candle)

/-- `drain_market_frame` from `pipeline.rs`. `emitted_at` is the abstract
`Instant`; `saturating_duration_since` is truncating `Nat` subtraction and the
`min(i64::MAX)` bound of the latency cast is kept. -/
def drain_market_frame (state : ConflatedMarketState) (emitted_at : Nat) :
    ConflatedMarketState × Option UiMarketFrameUpdate :=
  let s1t := drain_ui_tick state
  let s2c := drain_ui_candle s1t.1
  let s3d := drain_ui_delta_candle s2c.1
  if s1t.2 = none ∧ s2c.2 = none ∧ s3d.2 = none then (s3d.1, none)
  else
    let local_pipeline_latency_ms :=
      s3d.1.pending_ingest_started_at.map fun started =>
        min ((emitted_at - started : Nat) : Int) i64Max
    ({ s3d.1 with pending_ingest_started_at := none },
      some { tick := s1t.2
             candle := s2c.2
             delta_candle := s3d.2
             local_pipeline_latency_ms := local_pipeline_latency_ms })

/-- `ClockSyncEwma` from `pipeline.rs`. -/
structure ClockSyncEwma where
  initialized : Bool
  value_ms : Int
  deriving DecidableEq

/-- The derived Rust `Default` of `ClockSyncEwma`. -/
def ClockSyncEwma.default : ClockSyncEwma :=
  { initialized := false, value_ms := 0 }

/-- `ClockSyncEwma::update` from `pipeline.rs` (new state and returned value;
Rust's truncating `i64` division `/ 1_000` is `Int.tdiv`). -/
def ClockSyncEwma.update (self : ClockSyncEwma) (sample_ms rtt_ms : Int) :
    ClockSyncEwma × Int :=
  if !self.initialized then
    ({ self with value_ms := sample_ms, initialized := true }, sample_ms)
  else
    let alpha_permille : Int :=
      if rtt_ms ≤ 80 then 280
      else if rtt_ms ≤ 180 then 200
      else if rtt_ms ≤ 350 then 130
      else 90
    let delta := i64SatSub sample_ms self.value_ms
    let bounded_delta := i64RangeClamp delta (-300) 300
    let value_ms := i64SatAdd self.value_ms
      (Int.tdiv (i64SatMul bounded_delta alpha_permille) 1000)
    ({ self with value_ms := value_ms }, value_ms)

/-- `KlineWire` from `types.rs`, restricted to the components that
`kline_to_domain_pair` in `binance.rs` reads: `.0` (open time), `.1`-`.5`
(open, high, low, close, volume) and `.9` (taker buy volume). -/
structure KlineWire where
  open_time : Int
  o : ℚ
  h : ℚ
  l : ℚ
  c : ℚ
  v : ℚ
  taker_buy_volume : ℚ
  deriving DecidableEq

/-- `kline_to_domain_pair` from `binance.rs`. Over `ℚ` the float-parse and
finiteness failures of the source cannot arise; the negativity checks on
`volume` and `taker_buy_volume` remain as the `none` case. -/
def kline_to_domain_pair (kline : KlineWire) : Option (UiCandle × UiDeltaCandle) :=
  if kline.v < 0 ∨ kline.taker_buy_volume < 0 then none
  else
    let candle : UiCandle :=
      { t := kline.open_time
        o := kline.o
        h := kline.h
        l := kline.l
        c := kline.c
        v := kline.v }
    let signed_delta := kline.taker_buy_volume - (kline.v - kline.taker_buy_volume)
    let delta_candle : UiDeltaCandle :=
      { t := kline.open_time
        o := 0
        h := max signed_delta 0
        l := min signed_delta 0
        c := signed_delta
        v := kline.v }
    some (candle, delta_candle)

/-- The conversion loop body of `fetch_klines_history_bundle_with_progress`
(`for kline in page { kline_to_domain_pair(kline)? }`): convert every entry,
propagating the first failure. -/
def convert_klines : List KlineWire → Option (List (UiCandle × UiDeltaCandle))
  | [] => some []
  | k :: ks =>
    match kline_to_domain_pair k with
    | none => none
    | some cd =>
      match convert_klines ks with
      | none => none
      | some rest => some (cd :: rest)

/-- `BINANCE_MAX_KLINES_PER_REQUEST` from `binance.rs`. -/
def BINANCE_MAX_KLINES_PER_REQUEST : Nat := 1000

/-- The pagination loop of `fetch_klines_history_bundle_with_progress` from
`binance.rs` (`history_all = false` path: `target_limit = some target`).
The kline endpoint is embedded as the list of pages it returns, consumed in
request order; an exhausted list stands for an endpoint that answers the next
request with an empty page (the loop breaks on either). Accumulators hold the
newest-first candle lists the source builds by pushing each page reversed. -/
def fetch_klines_loop (target : Nat) (pages : List (List KlineWire))
    (candles_rev : List UiCandle) (delta_candles_rev : List UiDeltaCandle)
    (previous_oldest_open_time : Option Int) :
    Option (List UiCandle × List UiDeltaCandle) :=
  match pages with
  | [] => some (candles_rev, delta_candles_rev)
  | page :: rest =>
    let request_limit := min (target - candles_rev.length) BINANCE_MAX_KLINES_PER_REQUEST
    if request_limit = 0 then some (candles_rev, delta_candles_rev)
    else
      match page with
      | [] => some (candles_rev, delta_candles_rev)
      | k0 :: _ =>
        let oldest_open_time := k0.open_time
        let received := page.length
        match convert_klines page.reverse with
        | none => none
        | some converted =>
          let candles_rev2 := candles_rev ++ converted.map Prod.fst
          let delta_candles_rev2 := delta_candles_rev ++ converted.map Prod.snd
          if target ≤ candles_rev2.length then
            some (candles_rev2, delta_candles_rev2)
          else if received < request_limit then
            some (candles_rev2, delta_candles_rev2)
          else if (match previous_oldest_open_time with
              | some previous_oldest => decide (previous_oldest ≤ oldest_open_time)
              | none => false) then
            some (candles_rev2, delta_candles_rev2)
          else if oldest_open_time ≤ 0 then
            some (candles_rev2, delta_candles_rev2)
          else
            fetch_klines_loop target rest candles_rev2 delta_candles_rev2
              (some oldest_open_time)

/-- `fetch_klines_history_bundle_with_progress` from `binance.rs` with
`history_all = false` and `limit = target`: run the pagination loop, truncate
both newest-first accumulators to `target` (dropping the oldest overshoot) and
reverse them into ascending order. Progress callbacks only fire when
`history_all` holds and are omitted. -/
def fetch_klines_history_bundle (target : Nat) (pages : List (List KlineWire)) :
    Option (List UiCandle × List UiDeltaCandle) :=
  if target = 0 then some ([], [])
  else
    (fetch_klines_loop target pages [] [] none).map fun result =>
      ((result.1.take target).reverse, (result.2.take target).reverse)

/-- `AppError` from `error.rs`, restricted to the variant reachable from the
argument-normalization paths treated here. -/
inductive AppError where
  | InvalidArgument (message : String)
  deriving DecidableEq

/-- Rust `char::is_whitespace` (the Unicode `White_Space` property), on
Unicode scalar values embedded as `Nat`. -/
def is_rust_whitespace (c : Nat) : Bool :=
  decide ((9 ≤ c ∧ c ≤ 13) ∨ c = 32 ∨ c = 133 ∨ c = 160 ∨ c = 5760 ∨
    (8192 ≤ c ∧ c ≤ 8202) ∨ c = 8232 ∨ c = 8233 ∨ c = 8239 ∨ c = 8287 ∨
    c = 12288)

/-- Rust `str::trim`: strip leading and trailing whitespace. -/
def str_trim (s : List Nat) : List Nat :=
  ((s.dropWhile is_rust_whitespace).reverse.dropWhile is_rust_whitespace).reverse

/-- Rust `char::to_ascii_uppercase` on a scalar value. -/
def char_to_ascii_uppercase (c : Nat) : Nat :=
  if 97 ≤ c ∧ c ≤ 122 then c - 32 else c

/-- Rust `str::to_ascii_uppercase`. -/
def str_to_ascii_uppercase (s : List Nat) : List Nat :=
  s.map char_to_ascii_uppercase

/-- Rust `char::is_ascii_alphanumeric`. -/
def char_is_ascii_alphanumeric (c : Nat) : Bool :=
  decide ((48 ≤ c ∧ c ≤ 57) ∨ (65 ≤ c ∧ c ≤ 90) ∨ (97 ≤ c ∧ c ≤ 122))

/-- `normalize_symbol` from `types.rs`: trim, ASCII-uppercase, then validate
non-empty and all-alphanumeric. -/
def normalize_symbol (symbol : List Nat) : Except AppError (List Nat) :=
  let normalized := str_to_ascii_uppercase (str_trim symbol)
  if normalized = [] ∨ ¬ normalized.all char_is_ascii_alphanumeric then
    .error (.InvalidArgument "symbol must be non-empty alphanumeric ASCII")
  else
    .ok normalized

/-- `MarketKind` from `types.rs`. -/
inductive MarketKind where
  | Spot
  | FuturesUsdm
  deriving DecidableEq

/-- `MarketStartupMode` from `types.rs`. -/
inductive MarketStartupMode where
  | LiveFirst
  | HistoryFirst
  deriving DecidableEq

/-- `DEFAULT_SYMBOL` (`"BTCUSDT"`) from `types.rs`, as scalar values. -/
def DEFAULT_SYMBOL : List Nat := [66, 84, 67, 85, 83, 68, 84]

/-- `DEFAULT_MIN_NOTIONAL_USDT` from `types.rs`. -/
def DEFAULT_MIN_NOTIONAL_USDT : ℚ := 100

/-- `DEFAULT_EMIT_INTERVAL_MS` from `types.rs`. -/
def DEFAULT_EMIT_INTERVAL_MS : Nat := 16

/-- `DEFAULT_CLOCK_SYNC_INTERVAL_MS` from `types.rs`. -/
def DEFAULT_CLOCK_SYNC_INTERVAL_MS : Nat := 30000

/-- `DEFAULT_HISTORY_LIMIT` from `types.rs`. -/
def DEFAULT_HISTORY_LIMIT : Nat := 5000

/-- `StartMarketStreamArgs` from `types.rs` (strings as scalar-value lists,
`f64` as `ℚ`, `u64`/`u16` as `Nat`). -/
structure StartMarketStreamArgs where
  market_kind : Option MarketKind
  symbol : Option (List Nat)
  min_notional_usdt : Option ℚ
  emit_interval_ms : Option Nat
  mock_mode : Option Bool
  emit_legacy_price_event : Option Bool
  emit_legacy_frame_events : Option Bool
  perf_telemetry : Option Bool
  clock_sync_interval_ms : Option Nat
  timeframe : Option MarketTimeframe
  startup_mode : Option MarketStartupMode
  history_limit : Option Nat

/-- The all-`none` `StartMarketStreamArgs` (the derived Rust `Default`). -/
def StartMarketStreamArgs.default : StartMarketStreamArgs :=
  { market_kind := none
    symbol := none
    min_notional_usdt := none
    emit_interval_ms := none
    mock_mode := none
    emit_legacy_price_event := none
    emit_legacy_frame_events := none
    perf_telemetry := none
    clock_sync_interval_ms := none
    timeframe := none
    startup_mode := none
    history_limit := none }

/-- `MarketStreamConfig` from `types.rs`. -/
structure MarketStreamConfig where
  market_kind : MarketKind
  symbol : List Nat
  min_notional_usdt : ℚ
  emit_interval_ms : Nat
  mock_mode : Bool
  emit_legacy_price_event : Bool
  emit_legacy_frame_events : Bool
  perf_telemetry : Bool
  clock_sync_interval_ms : Nat
  timeframe : MarketTimeframe
  startup_mode : MarketStartupMode
  history_limit : Nat

/-- `StartMarketStreamArgs::normalize` from `types.rs`. Over `ℚ` the
`is_finite` half of the `minNotionalUsdt` check cannot fail; the remaining
checks are kept verbatim. -/
def StartMarketStreamArgs.normalize (self : StartMarketStreamArgs) :
    Except AppError MarketStreamConfig := do
  let market_kind := self.market_kind.getD .Spot
  let symbol ← normalize_symbol (self.symbol.getD DEFAULT_SYMBOL)
  let min_notional_usdt := self.min_notional_usdt.getD DEFAULT_MIN_NOTIONAL_USDT
  if min_notional_usdt < 0 then
    throw (.InvalidArgument "minNotionalUsdt must be a finite non-negative number")
  let emit_interval_ms := self.emit_interval_ms.getD DEFAULT_EMIT_INTERVAL_MS
  if ¬ (8 ≤ emit_interval_ms ∧ emit_interval_ms ≤ 1000) then
    throw (.InvalidArgument "emitIntervalMs must be between 8 and 1000")
  let mock_mode := self.mock_mode.getD false
  let emit_legacy_price_event := self.emit_legacy_price_event.getD false
  let emit_legacy_frame_events := self.emit_legacy_frame_events.getD false
  let perf_telemetry := self.perf_telemetry.getD false
  let clock_sync_interval_ms :=
    self.clock_sync_interval_ms.getD DEFAULT_CLOCK_SYNC_INTERVAL_MS
  if ¬ (5000 ≤ clock_sync_interval_ms ∧ clock_sync_interval_ms ≤ 300000) then
    throw (.InvalidArgument "clockSyncIntervalMs must be between 5000 and 300000")
  let timeframe := self.timeframe.getD .M1
  let startup_mode := self.startup_mode.getD .LiveFirst
  let history_limit := self.history_limit.getD DEFAULT_HISTORY_LIMIT
  if ¬ (50 ≤ history_limit ∧ history_limit ≤ 10000) then
    throw (.InvalidArgument "historyLimit must be between 50 and 10000")
  return { market_kind := market_kind
           symbol := symbol
           min_notional_usdt := min_notional_usdt
           emit_interval_ms := emit_interval_ms
           mock_mode := mock_mode
           emit_legacy_price_event := emit_legacy_price_event
           emit_legacy_frame_events := emit_legacy_frame_events
           perf_telemetry := perf_telemetry
           clock_sync_interval_ms := clock_sync_interval_ms
           timeframe := timeframe
           startup_mode := startup_mode
           history_limit := history_limit }

/-- The `sample_trade` helper of the `pipeline.rs` tests: a trade whose
`event_time` equals its `trade_time`. -/
def sample_trade (id : Nat) (trade_time : Int) (price qty : ℚ)
    (is_buyer_maker : Bool) : AggTradeEvent :=
  { event_time := trade_time
    aggregate_trade_id := id
    price := price
    quantity := qty
    trade_time := trade_time
    is_buyer_maker := is_buyer_maker }

/-- C1: when `last_agg_id = some n`, a trade with id at most `n` yields
`Stale` and an id above `n` other than `n + 1` yields
`GapDetected {expected := n + 1, found := id}`; in both cases the state is
returned completely unchanged. -/
theorem C1_stale_gap_no_mutation
    (state : ConflatedMarketState) (n : Nat) (trade : AggTradeEvent)
    (min_notional : ℚ) (timeframe : MarketTimeframe) (now : Int) (ingest : Nat)
    (hlast : state.last_agg_id = some n)
    (hid : trade.aggregate_trade_id ≤ u64Max) :
    (trade.aggregate_trade_id ≤ n →
      apply_trade_event state trade min_notional timeframe now ingest =
        (state, .Stale trade.aggregate_trade_id n)) ∧
    (n < trade.aggregate_trade_id → trade.aggregate_trade_id ≠ n + 1 →
      apply_trade_event state trade min_notional timeframe now ingest =
        (state, .GapDetected (n + 1) trade.aggregate_trade_id)) := by
  constructor
  · intro hle
    simp only [apply_trade_event, hlast]
    rw [if_pos hle]
  · intro hgt hne
    have hsat : u64SatAdd n 1 = n + 1 := by
      unfold u64SatAdd u64Max
      unfold u64Max at hid
      omega
    simp only [apply_trade_event, hlast, hsat]
    rw [if_neg (by omega), if_pos hne]

/-- Witness for C1 at the spec's concrete gap scenario: trade id 12 against
`last_agg_id = some 10` yields `GapDetected {expected := 11, found := 12}`
with the state unchanged. -/
theorem C1_stale_gap_no_mutation_witness :
    apply_trade_event
        { ConflatedMarketState.default with last_agg_id := some 10 }
        (sample_trade 12 60100 101 2 true) 10 .M1 2000 0 =
      ({ ConflatedMarketState.default with last_agg_id := some 10 },
        .GapDetected 11 12) :=
  (C1_stale_gap_no_mutation
      { ConflatedMarketState.default with last_agg_id := some 10 } 10
      (sample_trade 12 60100 101 2 true) 10 .M1 2000 0 rfl (by decide)).2
    (by decide) (by decide)

/-- For `0 ≤ b` and `0 ≤ a ≤ 1000`, the truncating quotient
`(b * a).tdiv 1000` stays in `[0, b]`. -/
theorem tdiv_thousand_of_nonneg {b a : Int} (hb : 0 ≤ b) (ha : 0 ≤ a)
    (ha' : a ≤ 1000) : 0 ≤ (b * a).tdiv 1000 ∧ (b * a).tdiv 1000 ≤ b := by
  have hba : 0 ≤ b * a := mul_nonneg hb ha
  have h1 : (b * a).tdiv 1000 = (b * a) / 1000 := Int.tdiv_eq_ediv hba (by norm_num)
  constructor
  · rw [h1]
    exact Int.ediv_nonneg hba (by norm_num)
  · rw [h1]
    have h2 : b * a ≤ b * 1000 := by nlinarith
    calc (b * a) / 1000 ≤ (b * 1000) / 1000 := Int.ediv_le_ediv (by norm_num) h2
    _ = b := Int.mul_ediv_cancel b (by norm_num)

/-- For `b ≤ 0` and `0 ≤ a ≤ 1000`, the truncating quotient
`(b * a).tdiv 1000` stays in `[b, 0]`. -/
theorem tdiv_thousand_of_nonpos {b a : Int} (hb : b ≤ 0) (ha : 0 ≤ a)
    (ha' : a ≤ 1000) : b ≤ (b * a).tdiv 1000 ∧ (b * a).tdiv 1000 ≤ 0 := by
  have h := tdiv_thousand_of_nonneg (b := -b) (a := a) (by omega) ha ha'
  have hneg : ((-b) * a).tdiv 1000 = -((b * a).tdiv 1000) := by
    rw [neg_mul, Int.neg_tdiv]
  rw [hneg] at h
  omega

/-- C8: the clock-offset EWMA stores the first sample verbatim; every later
update adds `clamp(sample − value, −300, 300) × alpha / 1000` (truncating
integer division) to the stored value, with `alpha` picked from the RTT
ladder 280/200/130/90. The `i64` range hypotheses say the inputs are genuine
`i64` values, under which the source's saturating arithmetic never clips. -/
theorem C8_clock_sync_ewma_update (e : ClockSyncEwma) (sample rtt : Int)
    (hv1 : i64Min ≤ e.value_ms) (hv2 : e.value_ms ≤ i64Max)
    (hs1 : i64Min ≤ sample) (hs2 : sample ≤ i64Max) :
    (e.initialized = false →
      e.update sample rtt = ({ initialized := true, value_ms := sample }, sample)) ∧
    (e.initialized = true →
      e.update sample rtt =
        ({ e with value_ms := (e.value_ms + Int.tdiv
            (i64RangeClamp (sample - e.value_ms) (-300) 300 *
              (if rtt ≤ 80 then 280 else if rtt ≤ 180 then 200
               else if rtt ≤ 350 then 130 else 90)) 1000) },
          e.value_ms + Int.tdiv
            (i64RangeClamp (sample - e.value_ms) (-300) 300 *
              (if rtt ≤ 80 then 280 else if rtt ≤ 180 then 200
               else if rtt ≤ 350 then 130 else 90)) 1000)) := by
  constructor
  · intro h
    simp [ClockSyncEwma.update, h]
  · intro h
    have hα : (0:Int) ≤ (if rtt ≤ 80 then 280 else if rtt ≤ 180 then (200:Int)
        else if rtt ≤ 350 then 130 else 90) ∧
        (if rtt ≤ 80 then 280 else if rtt ≤ 180 then (200:Int)
        else if rtt ≤ 350 then 130 else 90) ≤ 1000 := by
      split_ifs <;> norm_num
    set α := (if rtt ≤ 80 then 280 else if rtt ≤ 180 then (200:Int)
        else if rtt ≤ 350 then 130 else 90)
    have hclamp : i64RangeClamp (i64SatSub sample e.value_ms) (-300) 300 =
        i64RangeClamp (sample - e.value_ms) (-300) 300 := by
      unfold i64RangeClamp i64SatSub i64Clamp i64Min i64Max
      simp only [i64Min, i64Max] at hv1 hv2 hs1 hs2
      omega
    set bd := i64RangeClamp (sample - e.value_ms) (-300) 300 with hbd
    have hbd_bounds : -300 ≤ bd ∧ bd ≤ 300 ∧
        (0 < bd → bd ≤ sample - e.value_ms) ∧
        (bd < 0 → sample - e.value_ms ≤ bd) := by
      rw [hbd]
      unfold i64RangeClamp
      omega
    have hmul : i64SatMul bd α = bd * α := by
      unfold i64SatMul i64Clamp i64Min i64Max
      have h1 : bd * α ≤ 300 * 1000 := by nlinarith [hα.1, hα.2, hbd_bounds.1, hbd_bounds.2.1]
      have h2 : -(300 * 1000) ≤ bd * α := by nlinarith [hα.1, hα.2, hbd_bounds.1, hbd_bounds.2.1]
      omega
    have hinc : (0 < (bd * α).tdiv 1000 → 0 < bd ∧ (bd * α).tdiv 1000 ≤ bd) ∧
        ((bd * α).tdiv 1000 < 0 → bd < 0 ∧ bd ≤ (bd * α).tdiv 1000) := by
      rcases le_or_lt 0 bd with hb | hb
      · have := tdiv_thousand_of_nonneg hb hα.1 hα.2
        omega
      · have := tdiv_thousand_of_nonpos (le_of_lt hb) hα.1 hα.2
        omega
    have hadd : i64SatAdd e.value_ms ((bd * α).tdiv 1000) =
        e.value_ms + (bd * α).tdiv 1000 := by
      unfold i64SatAdd i64Clamp i64Min i64Max
      simp only [i64Min, i64Max] at hv1 hv2 hs1 hs2
      omega
    simp only [ClockSyncEwma.update, h, Bool.not_true, Bool.false_eq_true,
      if_false, hclamp, ← hbd, hmul, hadd]

/-- Witness for C8 at a concrete initialized state: value 100, sample 500,
RTT 100 picks `alpha = 200`, clamps the delta to 300 and lands on the pure
integer-arithmetic formula. -/
theorem C8_clock_sync_ewma_update_witness :
    ((⟨true, 100⟩ : ClockSyncEwma).initialized = true) ∧
    (⟨true, 100⟩ : ClockSyncEwma).update 500 100 =
      ({ (⟨true, 100⟩ : ClockSyncEwma) with value_ms := (100 + Int.tdiv
          (i64RangeClamp (500 - 100) (-300) 300 *
            (if (100:Int) ≤ 80 then 280 else if (100:Int) ≤ 180 then 200
             else if (100:Int) ≤ 350 then 130 else 90)) 1000) },
        100 + Int.tdiv
          (i64RangeClamp (500 - 100) (-300) 300 *
            (if (100:Int) ≤ 80 then 280 else if (100:Int) ≤ 180 then 200
             else if (100:Int) ≤ 350 then 130 else 90)) 1000) :=
  ⟨rfl,
    (C8_clock_sync_ewma_update ⟨true, 100⟩ 500 100 (by decide) (by decide)
        (by decide) (by decide)).2 rfl⟩

/-- C9: when the fetched history is non-empty and its last candle is at least
as new as the current one (or there is none), `apply_history_snapshot`
replaces `last_candle` and also overwrites `last_price` with that candle's
close; when the fetched last candle is strictly older, the state is returned
unchanged. -/
theorem C9_history_merge_overwrites_last_price
    (state : ConflatedMarketState) (candles : List UiCandle) (lastc : UiCandle)
    (hlast : candles.getLast? = some lastc) :
    ((state.last_candle = none ∨
        ∃ cur, state.last_candle = some cur ∧ cur.t ≤ lastc.t) →
      apply_history_snapshot state candles =
        { state with last_candle := some lastc, last_price := some lastc.c }) ∧
    (∀ cur, state.last_candle = some cur → lastc.t < cur.t →
      apply_history_snapshot state candles = state) := by
  constructor
  · rintro (hnone | ⟨cur, hcur, hle⟩)
    · simp [apply_history_snapshot, hlast, hnone]
    · simp [apply_history_snapshot, hlast, hcur, hle]
  · intro cur hcur hlt
    simp [apply_history_snapshot, hlast, hcur, not_le.mpr hlt]

/-- Witness for C9: merging a one-candle history into the default state (no
current candle) installs the candle and its close as the live last price. -/
theorem C9_history_merge_overwrites_last_price_witness :
    apply_history_snapshot ConflatedMarketState.default
        [{ t := 60000, o := 1, h := 3, l := 1, c := 2, v := 5 }] =
      { ConflatedMarketState.default with
          last_candle := some { t := 60000, o := 1, h := 3, l := 1, c := 2, v := 5 }
          last_price := some 2 } :=
  (C9_history_merge_overwrites_last_price ConflatedMarketState.default
      [{ t := 60000, o := 1, h := 3, l := 1, c := 2, v := 5 }]
      { t := 60000, o := 1, h := 3, l := 1, c := 2, v := 5 } rfl).1
    (Or.inl rfl)

/-- ASCII-uppercasing a scalar value preserves `is_ascii_alphanumeric`. -/
theorem char_is_ascii_alphanumeric_uppercase (c : Nat) :
    char_is_ascii_alphanumeric (char_to_ascii_uppercase c) =
      char_is_ascii_alphanumeric c := by
  unfold char_to_ascii_uppercase char_is_ascii_alphanumeric
  split_ifs with h
  · simp only [decide_eq_decide]
    omega
  · rfl

/-- The ASCII uppercase image of an ASCII-alphanumeric scalar value lies in
`A`-`Z` or `0`-`9`. -/
theorem char_to_ascii_uppercase_range (c : Nat)
    (h : char_is_ascii_alphanumeric c = true) :
    (65 ≤ char_to_ascii_uppercase c ∧ char_to_ascii_uppercase c ≤ 90) ∨
    (48 ≤ char_to_ascii_uppercase c ∧ char_to_ascii_uppercase c ≤ 57) := by
  simp only [char_is_ascii_alphanumeric, decide_eq_true_eq] at h
  unfold char_to_ascii_uppercase
  split_ifs with h2
  · omega
  · omega

/-- ASCII-uppercasing a string preserves the all-alphanumeric check. -/
theorem str_to_ascii_uppercase_all_alphanumeric (s : List Nat) :
    (str_to_ascii_uppercase s).all char_is_ascii_alphanumeric =
      s.all char_is_ascii_alphanumeric := by
  unfold str_to_ascii_uppercase
  induction s with
  | nil => rfl
  | cons c cs ih =>
    simp only [List.map_cons, List.all_cons, char_is_ascii_alphanumeric_uppercase, ih]

/-- C10: `StartMarketStreamArgs::normalize` trims and ASCII-uppercases the
symbol before validating it, so any input that is non-empty and all
ASCII-alphanumeric after trimming (lowercase included) normalizes
successfully to a config whose symbol holds only `A`-`Z` and `0`-`9`, while
an input that trims to empty or contains a non-alphanumeric character yields
an `InvalidArgument` error. Stated with all other arguments absent (their
defaults pass the remaining range checks). -/
theorem C10_normalize_symbol_trim_upper_validate (s : List Nat) :
    ((str_trim s ≠ [] ∧ ∀ c ∈ str_trim s, char_is_ascii_alphanumeric c = true) →
      StartMarketStreamArgs.normalize
          { StartMarketStreamArgs.default with symbol := some s } =
        .ok { market_kind := .Spot
              symbol := str_to_ascii_uppercase (str_trim s)
              min_notional_usdt := DEFAULT_MIN_NOTIONAL_USDT
              emit_interval_ms := DEFAULT_EMIT_INTERVAL_MS
              mock_mode := false
              emit_legacy_price_event := false
              emit_legacy_frame_events := false
              perf_telemetry := false
              clock_sync_interval_ms := DEFAULT_CLOCK_SYNC_INTERVAL_MS
              timeframe := .M1
              startup_mode := .LiveFirst
              history_limit := DEFAULT_HISTORY_LIMIT } ∧
      ∀ c ∈ str_to_ascii_uppercase (str_trim s),
        (65 ≤ c ∧ c ≤ 90) ∨ (48 ≤ c ∧ c ≤ 57)) ∧
    ((str_trim s = [] ∨ ∃ c ∈ str_trim s, char_is_ascii_alphanumeric c = false) →
      StartMarketStreamArgs.normalize
          { StartMarketStreamArgs.default with symbol := some s } =
        .error (.InvalidArgument "symbol must be non-empty alphanumeric ASCII")) := by
  constructor
  · rintro ⟨h1, h2⟩
    have hall : (str_trim s).all char_is_ascii_alphanumeric = true :=
      List.all_eq_true.mpr h2
    have hok : normalize_symbol s = .ok (str_to_ascii_uppercase (str_trim s)) := by
      unfold normalize_symbol
      rw [if_neg]
      push_neg
      refine ⟨?_, ?_⟩
      · simpa [str_to_ascii_uppercase] using h1
      · rw [str_to_ascii_uppercase_all_alphanumeric]
        exact hall
    constructor
    · simp only [StartMarketStreamArgs.normalize, StartMarketStreamArgs.default,
        Option.getD_some, Option.getD_none, hok, Bind.bind, Except.bind]
      norm_num [DEFAULT_MIN_NOTIONAL_USDT, DEFAULT_EMIT_INTERVAL_MS,
        DEFAULT_CLOCK_SYNC_INTERVAL_MS, DEFAULT_HISTORY_LIMIT,
        Pure.pure, Except.pure]
    · intro c hc
      simp only [str_to_ascii_uppercase, List.mem_map] at hc
      obtain ⟨c0, hc0, rfl⟩ := hc
      exact char_to_ascii_uppercase_range c0 (h2 c0 hc0)
  · intro h
    have herr : normalize_symbol s =
        .error (.InvalidArgument "symbol must be non-empty alphanumeric ASCII") := by
      unfold normalize_symbol
      rw [if_pos]
      rcases h with h | ⟨c, hc, hfalse⟩
      · left
        simp [str_to_ascii_uppercase, h]
      · right
        rw [str_to_ascii_uppercase_all_alphanumeric]
        simp only [List.all_eq_true, not_forall]
        exact ⟨c, hc, by simp [hfalse]⟩
    simp only [StartMarketStreamArgs.normalize, StartMarketStreamArgs.default,
      Option.getD_some, herr, Bind.bind, Except.bind]

/-- Witness for C10: the lowercase input `"btcusdt"` normalizes to the
uppercase config symbol `"BTCUSDT"`. -/
theorem C10_normalize_symbol_trim_upper_validate_witness :
    (str_trim [98, 116, 99, 117, 115, 100, 116] ≠ [] ∧
      ∀ c ∈ str_trim [98, 116, 99, 117, 115, 100, 116],
        char_is_ascii_alphanumeric c = true) ∧
    (StartMarketStreamArgs.normalize
        { StartMarketStreamArgs.default with
            symbol := some [98, 116, 99, 117, 115, 100, 116] } =
      .ok { market_kind := .Spot
            symbol := str_to_ascii_uppercase
              (str_trim [98, 116, 99, 117, 115, 100, 116])
            min_notional_usdt := DEFAULT_MIN_NOTIONAL_USDT
            emit_interval_ms := DEFAULT_EMIT_INTERVAL_MS
            mock_mode := false
            emit_legacy_price_event := false
            emit_legacy_frame_events := false
            perf_telemetry := false
            clock_sync_interval_ms := DEFAULT_CLOCK_SYNC_INTERVAL_MS
            timeframe := .M1
            startup_mode := .LiveFirst
            history_limit := DEFAULT_HISTORY_LIMIT } ∧
      ∀ c ∈ str_to_ascii_uppercase (str_trim [98, 116, 99, 117, 115, 100, 116]),
        (65 ≤ c ∧ c ≤ 90) ∨ (48 ≤ c ∧ c ≤ 57)) :=
  ⟨⟨by decide, by decide⟩,
    (C10_normalize_symbol_trim_upper_validate
        [98, 116, 99, 117, 115, 100, 116]).1 ⟨by decide, by decide⟩⟩

/-- `update_candle_from_trade` only touches `last_candle` and
`pending_candle`: every other field is passed through. -/
theorem update_candle_from_trade_frame (s : ConflatedMarketState)
    (tr : AggTradeEvent) (tf : MarketTimeframe) :
    (update_candle_from_trade s tr tf).last_agg_id = s.last_agg_id ∧
    (update_candle_from_trade s tr tf).last_price = s.last_price ∧
    (update_candle_from_trade s tr tf).last_latency_ms = s.last_latency_ms ∧
    (update_candle_from_trade s tr tf).pending_price = s.pending_price ∧
    (update_candle_from_trade s tr tf).pending_volume = s.pending_volume ∧
    (update_candle_from_trade s tr tf).pending_direction = s.pending_direction ∧
    (update_candle_from_trade s tr tf).pending_time = s.pending_time ∧
    (update_candle_from_trade s tr tf).pending_ingest_started_at =
      s.pending_ingest_started_at ∧
    (update_candle_from_trade s tr tf).last_delta_candle = s.last_delta_candle ∧
    (update_candle_from_trade s tr tf).pending_delta_candle =
      s.pending_delta_candle := by
  unfold update_candle_from_trade
  rcases hc : s.last_candle with _ | cur
  · simp only [hc]
    simp
  · simp only [hc]
    split_ifs <;> simp

/-- `update_delta_candle_from_trade` only touches `last_delta_candle` and
`pending_delta_candle`: every other field is passed through. -/
theorem update_delta_candle_from_trade_frame (s : ConflatedMarketState)
    (tr : AggTradeEvent) (tf : MarketTimeframe) :
    (update_delta_candle_from_trade s tr tf).last_agg_id = s.last_agg_id ∧
    (update_delta_candle_from_trade s tr tf).last_price = s.last_price ∧
    (update_delta_candle_from_trade s tr tf).last_latency_ms =
      s.last_latency_ms ∧
    (update_delta_candle_from_trade s tr tf).pending_price = s.pending_price ∧
    (update_delta_candle_from_trade s tr tf).pending_volume = s.pending_volume ∧
    (update_delta_candle_from_trade s tr tf).pending_direction =
      s.pending_direction ∧
    (update_delta_candle_from_trade s tr tf).pending_time = s.pending_time ∧
    (update_delta_candle_from_trade s tr tf).pending_ingest_started_at =
      s.pending_ingest_started_at ∧
    (update_delta_candle_from_trade s tr tf).last_candle = s.last_candle ∧
    (update_delta_candle_from_trade s tr tf).pending_candle =
      s.pending_candle := by
  unfold update_delta_candle_from_trade
  rcases hc : s.last_delta_candle with _ | cur
  · simp only [hc]
    simp
  · simp only [hc]
    split_ifs <;> simp

/-- The mutating tail of `apply_trade_event` always records the trade id and
the passed ingest instant, whatever the notional filter decides. -/
theorem apply_trade_event_mutate_ids (s : ConflatedMarketState)
    (tr : AggTradeEvent) (mn : ℚ) (tf : MarketTimeframe) (now : Int)
    (inst : Nat) :
    ((apply_trade_event_mutate s tr mn tf now inst).1).last_agg_id =
      some tr.aggregate_trade_id ∧
    ((apply_trade_event_mutate s tr mn tf now inst).1).pending_ingest_started_at =
      some inst := by
  unfold apply_trade_event_mutate
  have hc := update_candle_from_trade_frame
    { s with
      last_agg_id := some tr.aggregate_trade_id
      last_price := some tr.price
      last_latency_ms := some (max (i64SatSub now tr.event_time) 0) } tr tf
  have hd := update_delta_candle_from_trade_frame
    (update_candle_from_trade
      { s with
        last_agg_id := some tr.aggregate_trade_id
        last_price := some tr.price
        last_latency_ms := some (max (i64SatSub now tr.event_time) 0) } tr tf)
    tr tf
  split_ifs <;> simp_all

/-- C6 counterexample: two applied trades carrying ingest instants 10 then
20; the claim would keep the first instant 10, but the state holds the
last one, 20. -/
theorem C6_counterexample :
    ((apply_trade_event
        (apply_trade_event ConflatedMarketState.default
          (sample_trade 1 60000 100 1 false) 1 .M1 0 10).1
        (sample_trade 2 60010 101 1 true) 1 .M1 0 20).1).pending_ingest_started_at =
      some 20 ∧ some (20 : Nat) ≠ some (10 : Nat) := by
  refine ⟨?_, by decide⟩
  have e1 : apply_trade_event ConflatedMarketState.default
      (sample_trade 1 60000 100 1 false) 1 .M1 0 10 =
      apply_trade_event_mutate ConflatedMarketState.default
        (sample_trade 1 60000 100 1 false) 1 .M1 0 10 := rfl
  have hid1 : ((apply_trade_event ConflatedMarketState.default
      (sample_trade 1 60000 100 1 false) 1 .M1 0 10).1).last_agg_id = some 1 := by
    rw [e1]
    exact (apply_trade_event_mutate_ids _ _ _ _ _ _).1
  have e2 : apply_trade_event
      (apply_trade_event ConflatedMarketState.default
        (sample_trade 1 60000 100 1 false) 1 .M1 0 10).1
      (sample_trade 2 60010 101 1 true) 1 .M1 0 20 =
      apply_trade_event_mutate
        (apply_trade_event ConflatedMarketState.default
          (sample_trade 1 60000 100 1 false) 1 .M1 0 10).1
        (sample_trade 2 60010 101 1 true) 1 .M1 0 20 := by
    generalize hs1 : (apply_trade_event ConflatedMarketState.default
        (sample_trade 1 60000 100 1 false) 1 .M1 0 10).1 = s1 at hid1 ⊢
    simp only [apply_trade_event, hid1]
    rw [if_neg (by decide), if_neg (by decide)]
  rw [e2]
  exact (apply_trade_event_mutate_ids _ _ _ _ _ _).2

/-- C6 amended: `apply_trade_event` sets `pending_ingest_started_at` to the
passed instant unconditionally on every applied trade — last-wins within a
frame, so an undrained sequence of applied trades leaves the instant of the
most recent one, not the first. -/
theorem C6_applied_ingest_instant_last_wins (s : ConflatedMarketState)
    (tr : AggTradeEvent) (mn : ℚ) (tf : MarketTimeframe) (now : Int)
    (inst : Nat)
    (happlied : ∃ e, (apply_trade_event s tr mn tf now inst).2 = .Applied e) :
    ((apply_trade_event s tr mn tf now inst).1).pending_ingest_started_at =
      some inst := by
  obtain ⟨e, he⟩ := happlied
  unfold apply_trade_event at he ⊢
  rcases hid : s.last_agg_id with _ | n
  · simp only [hid]
    exact (apply_trade_event_mutate_ids _ _ _ _ _ _).2
  · simp only [hid] at he ⊢
    split_ifs at he ⊢ with h1 h2
    exact (apply_trade_event_mutate_ids _ _ _ _ _ _).2

/-- Witness for C6 amended: an applied trade on the fresh state records the
passed ingest instant 10. -/
theorem C6_applied_ingest_instant_last_wins_witness :
    (∃ e, (apply_trade_event ConflatedMarketState.default
      (sample_trade 1 60000 100 1 false) 1 .M1 0 10).2 = .Applied e) ∧
    ((apply_trade_event ConflatedMarketState.default
      (sample_trade 1 60000 100 1 false) 1 .M1 0 10).1).pending_ingest_started_at =
      some 10 := by
  have happlied : ∃ e, (apply_trade_event ConflatedMarketState.default
      (sample_trade 1 60000 100 1 false) 1 .M1 0 10).2 = .Applied e := by
    unfold apply_trade_event ConflatedMarketState.default apply_trade_event_mutate
    dsimp only
    split_ifs <;> exact ⟨_, rfl⟩
  exact ⟨happlied,
    C6_applied_ingest_instant_last_wins ConflatedMarketState.default
      (sample_trade 1 60000 100 1 false) 1 .M1 0 10 happlied⟩

/-- On an applied trade, `apply_trade_event` reduces to its mutating tail. -/
theorem apply_trade_event_applied_eq_mutate (s : ConflatedMarketState)
    (tr : AggTradeEvent) (mn : ℚ) (tf : MarketTimeframe) (now : Int) (inst : Nat)
    (happlied : ∃ e, (apply_trade_event s tr mn tf now inst).2 = .Applied e) :
    apply_trade_event s tr mn tf now inst =
      apply_trade_event_mutate s tr mn tf now inst := by
  obtain ⟨e, he⟩ := happlied
  unfold apply_trade_event at he ⊢
  rcases hid : s.last_agg_id with _ | n
  · simp only [hid]
  · simp only [hid] at he ⊢
    split_ifs at he ⊢ with h1 h2
    rfl

/-- A trade whose id is the successor of `last_agg_id` (still within `u64`)
passes the stale/gap guards, so `apply_trade_event` runs its mutating tail. -/
theorem apply_trade_event_next_id_eq_mutate (s : ConflatedMarketState)
    (tr : AggTradeEvent) (mn : ℚ) (tf : MarketTimeframe) (now : Int) (inst : Nat)
    (n : Nat) (hid : s.last_agg_id = some n)
    (htr : tr.aggregate_trade_id = n + 1) (hbound : n + 1 ≤ u64Max) :
    apply_trade_event s tr mn tf now inst =
      apply_trade_event_mutate s tr mn tf now inst := by
  unfold apply_trade_event
  simp only [hid]
  rw [if_neg (by omega), if_neg ?_]
  unfold u64SatAdd
  omega

/-- The pending tick accumulator after the mutating tail of an eligible trade
(`notional ≥ min_notional`): quantity is summed, price, direction and time
are overwritten, and the outcome is `Applied {eligible := true}`. -/
theorem apply_trade_event_mutate_eligible (s : ConflatedMarketState)
    (tr : AggTradeEvent) (mn : ℚ) (tf : MarketTimeframe) (now : Int)
    (inst : Nat) (h : mn ≤ tr.notional) :
    (apply_trade_event_mutate s tr mn tf now inst).2 = .Applied true ∧
    ((apply_trade_event_mutate s tr mn tf now inst).1).pending_price =
      some tr.price ∧
    ((apply_trade_event_mutate s tr mn tf now inst).1).pending_volume =
      s.pending_volume + tr.quantity ∧
    ((apply_trade_event_mutate s tr mn tf now inst).1).pending_direction =
      (if tr.is_buyer_maker then -1 else 1) ∧
    ((apply_trade_event_mutate s tr mn tf now inst).1).pending_time =
      tr.trade_time := by
  unfold apply_trade_event_mutate
  dsimp only
  rw [if_pos h]
  generalize hs1 : ({ s with
    last_agg_id := some tr.aggregate_trade_id
    last_price := some tr.price
    last_latency_ms := some (max (i64SatSub now tr.event_time) 0) } :
      ConflatedMarketState) = s1
  have h1v : s1.pending_volume = s.pending_volume := by rw [← hs1]
  obtain ⟨-, -, -, -, hc5, -, -, -, -, -⟩ := update_candle_from_trade_frame s1 tr tf
  obtain ⟨-, -, -, -, hd5, -, -, -, -, -⟩ :=
    update_delta_candle_from_trade_frame (update_candle_from_trade s1 tr tf) tr tf
  refine ⟨rfl, rfl, ?_, rfl, rfl⟩
  show (update_delta_candle_from_trade (update_candle_from_trade s1 tr tf)
    tr tf).pending_volume + tr.quantity = s.pending_volume + tr.quantity
  rw [hd5, hc5, h1v]

/-- The pending tick accumulator is untouched by the mutating tail of an
ineligible trade (`notional < min_notional`); the outcome is
`Applied {eligible := false}`. -/
theorem apply_trade_event_mutate_ineligible (s : ConflatedMarketState)
    (tr : AggTradeEvent) (mn : ℚ) (tf : MarketTimeframe) (now : Int)
    (inst : Nat) (h : tr.notional < mn) :
    (apply_trade_event_mutate s tr mn tf now inst).2 = .Applied false ∧
    ((apply_trade_event_mutate s tr mn tf now inst).1).pending_price =
      s.pending_price ∧
    ((apply_trade_event_mutate s tr mn tf now inst).1).pending_volume =
      s.pending_volume ∧
    ((apply_trade_event_mutate s tr mn tf now inst).1).pending_direction =
      s.pending_direction ∧
    ((apply_trade_event_mutate s tr mn tf now inst).1).pending_time =
      s.pending_time := by
  unfold apply_trade_event_mutate
  dsimp only
  rw [if_neg (not_le.mpr h)]
  generalize hs1 : ({ s with
    last_agg_id := some tr.aggregate_trade_id
    last_price := some tr.price
    last_latency_ms := some (max (i64SatSub now tr.event_time) 0) } :
      ConflatedMarketState) = s1
  have h1 : s1.pending_price = s.pending_price ∧
      s1.pending_volume = s.pending_volume ∧
      s1.pending_direction = s.pending_direction ∧
      s1.pending_time = s.pending_time := by
    rw [← hs1]
    exact ⟨rfl, rfl, rfl, rfl⟩
  obtain ⟨-, -, -, hc4, hc5, hc6, hc7, -, -, -⟩ :=
    update_candle_from_trade_frame s1 tr tf
  obtain ⟨-, -, -, hd4, hd5, hd6, hd7, -, -, -⟩ :=
    update_delta_candle_from_trade_frame (update_candle_from_trade s1 tr tf) tr tf
  exact ⟨rfl,
    by show (update_delta_candle_from_trade _ tr tf).pending_price = _
       rw [hd4, hc4, h1.1],
    by show (update_delta_candle_from_trade _ tr tf).pending_volume = _
       rw [hd5, hc5, h1.2.1],
    by show (update_delta_candle_from_trade _ tr tf).pending_direction = _
       rw [hd6, hc6, h1.2.2.1],
    by show (update_delta_candle_from_trade _ tr tf).pending_time = _
       rw [hd7, hc7, h1.2.2.2]⟩

/-- C3: every applied trade with `notional ≥ min_notional` sums its quantity
into the pending volume and overwrites pending price, direction (−1 when the
buyer is maker, +1 otherwise) and time, returning `Applied {eligible := true}`;
an applied trade below the threshold leaves the whole accumulator untouched
and returns `Applied {eligible := false}`. The spec's concrete two-trade
scenario drains to the single tick `{p = 101, v = 1, d = −1, t = 60010}`. -/
theorem C3_notional_filter_conflation :
    (∀ (s : ConflatedMarketState) (tr : AggTradeEvent) (mn : ℚ)
      (tf : MarketTimeframe) (now : Int) (inst : Nat),
      (∃ e, (apply_trade_event s tr mn tf now inst).2 = .Applied e) →
      (mn ≤ tr.notional →
        (apply_trade_event s tr mn tf now inst).2 = .Applied true ∧
        ((apply_trade_event s tr mn tf now inst).1).pending_price =
          some tr.price ∧
        ((apply_trade_event s tr mn tf now inst).1).pending_volume =
          s.pending_volume + tr.quantity ∧
        ((apply_trade_event s tr mn tf now inst).1).pending_direction =
          (if tr.is_buyer_maker then -1 else 1) ∧
        ((apply_trade_event s tr mn tf now inst).1).pending_time =
          tr.trade_time) ∧
      (tr.notional < mn →
        (apply_trade_event s tr mn tf now inst).2 = .Applied false ∧
        ((apply_trade_event s tr mn tf now inst).1).pending_price =
          s.pending_price ∧
        ((apply_trade_event s tr mn tf now inst).1).pending_volume =
          s.pending_volume ∧
        ((apply_trade_event s tr mn tf now inst).1).pending_direction =
          s.pending_direction ∧
        ((apply_trade_event s tr mn tf now inst).1).pending_time =
          s.pending_time)) ∧
    (drain_ui_tick (apply_trade_event
        (apply_trade_event ConflatedMarketState.default
          (sample_trade 1 60100 100 0.4 false) 1 .M1 0 0).1
        (sample_trade 2 60010 101 0.6 true) 1 .M1 0 0).1).2 =
      some { t := 60010, p := 101, v := 1, d := -1 } := by
  constructor
  · intro s tr mn tf now inst happlied
    rw [apply_trade_event_applied_eq_mutate s tr mn tf now inst happlied]
    exact ⟨fun h => apply_trade_event_mutate_eligible s tr mn tf now inst h,
      fun h => apply_trade_event_mutate_ineligible s tr mn tf now inst h⟩
  · have e1 : apply_trade_event ConflatedMarketState.default
        (sample_trade 1 60100 100 0.4 false) 1 .M1 0 0 =
        apply_trade_event_mutate ConflatedMarketState.default
          (sample_trade 1 60100 100 0.4 false) 1 .M1 0 0 := rfl
    have hel1 := apply_trade_event_mutate_eligible ConflatedMarketState.default
      (sample_trade 1 60100 100 0.4 false) 1 .M1 0 0
      (by norm_num [sample_trade, AggTradeEvent.notional])
    have hids1 := apply_trade_event_mutate_ids ConflatedMarketState.default
      (sample_trade 1 60100 100 0.4 false) 1 .M1 0 0
    have e2 := apply_trade_event_next_id_eq_mutate
      (apply_trade_event ConflatedMarketState.default
        (sample_trade 1 60100 100 0.4 false) 1 .M1 0 0).1
      (sample_trade 2 60010 101 0.6 true) 1 .M1 0 0 1
      (by rw [e1]; exact hids1.1) rfl (by decide)
    have hel2 := apply_trade_event_mutate_eligible
      (apply_trade_event ConflatedMarketState.default
        (sample_trade 1 60100 100 0.4 false) 1 .M1 0 0).1
      (sample_trade 2 60010 101 0.6 true) 1 .M1 0 0
      (by norm_num [sample_trade, AggTradeEvent.notional])
    rw [e2]
    unfold drain_ui_tick
    rw [hel2.2.1]
    simp only [Option.some.injEq, UiTick.mk.injEq]
    refine ⟨?_, ?_, ?_, ?_⟩
    · rw [hel2.2.2.2.2]
      rfl
    · rfl
    · rw [hel2.2.2.1, e1, hel1.2.2.1]
      norm_num [sample_trade, ConflatedMarketState.default]
    · rw [hel2.2.2.2.1]
      rfl

/-- Witness for C3 at a concrete applied, eligible trade on the fresh state
(price 2, quantity 3, threshold 0). -/
theorem C3_notional_filter_conflation_witness :
    (∃ e, (apply_trade_event ConflatedMarketState.default
      (sample_trade 1 60000 2 3 false) 0 .M1 0 0).2 = .Applied e) ∧
    ((0 : ℚ) ≤ (sample_trade 1 60000 2 3 false).notional) ∧
    ((apply_trade_event ConflatedMarketState.default
        (sample_trade 1 60000 2 3 false) 0 .M1 0 0).2 = .Applied true ∧
      ((apply_trade_event ConflatedMarketState.default
        (sample_trade 1 60000 2 3 false) 0 .M1 0 0).1).pending_price =
        some (sample_trade 1 60000 2 3 false).price ∧
      ((apply_trade_event ConflatedMarketState.default
        (sample_trade 1 60000 2 3 false) 0 .M1 0 0).1).pending_volume =
        ConflatedMarketState.default.pending_volume +
          (sample_trade 1 60000 2 3 false).quantity ∧
      ((apply_trade_event ConflatedMarketState.default
        (sample_trade 1 60000 2 3 false) 0 .M1 0 0).1).pending_direction =
        (if (sample_trade 1 60000 2 3 false).is_buyer_maker then -1 else 1) ∧
      ((apply_trade_event ConflatedMarketState.default
        (sample_trade 1 60000 2 3 false) 0 .M1 0 0).1).pending_time =
        (sample_trade 1 60000 2 3 false).trade_time) := by
  have happlied : ∃ e, (apply_trade_event ConflatedMarketState.default
      (sample_trade 1 60000 2 3 false) 0 .M1 0 0).2 = .Applied e := by
    unfold apply_trade_event ConflatedMarketState.default apply_trade_event_mutate
    dsimp only
    split_ifs <;> exact ⟨_, rfl⟩
  have hnotional : (0 : ℚ) ≤ (sample_trade 1 60000 2 3 false).notional :=
    mul_nonneg (by norm_num [sample_trade]) (by norm_num [sample_trade])
  exact ⟨happlied, hnotional,
    (C3_notional_filter_conflation.1 ConflatedMarketState.default
      (sample_trade 1 60000 2 3 false) 0 .M1 0 0 happlied).1 hnotional⟩

/-- Both candle outputs of `update_candle_from_trade` depend only on the
input's `last_candle` and `pending_candle`. -/
theorem update_candle_from_trade_candles_congr (s s' : ConflatedMarketState)
    (tr : AggTradeEvent) (tf : MarketTimeframe)
    (h1 : s.last_candle = s'.last_candle)
    (h2 : s.pending_candle = s'.pending_candle) :
    (update_candle_from_trade s tr tf).last_candle =
      (update_candle_from_trade s' tr tf).last_candle ∧
    (update_candle_from_trade s tr tf).pending_candle =
      (update_candle_from_trade s' tr tf).pending_candle := by
  unfold update_candle_from_trade
  rw [h1]
  rcases hc : s'.last_candle with _ | cur
  · exact ⟨rfl, rfl⟩
  · dsimp only
    split_ifs
    · exact ⟨h1, h2⟩
    · exact ⟨rfl, rfl⟩
    · exact ⟨rfl, rfl⟩

/-- The candle outputs of the mutating tail equal those of
`update_candle_from_trade` on the pre-candle state. -/
theorem apply_trade_event_mutate_candles (s : ConflatedMarketState)
    (tr : AggTradeEvent) (mn : ℚ) (tf : MarketTimeframe) (now : Int)
    (inst : Nat) :
    ((apply_trade_event_mutate s tr mn tf now inst).1).last_candle =
      (update_candle_from_trade s tr tf).last_candle ∧
    ((apply_trade_event_mutate s tr mn tf now inst).1).pending_candle =
      (update_candle_from_trade s tr tf).pending_candle := by
  unfold apply_trade_event_mutate
  dsimp only
  generalize hs1 : ({ s with
    last_agg_id := some tr.aggregate_trade_id
    last_price := some tr.price
    last_latency_ms := some (max (i64SatSub now tr.event_time) 0) } :
      ConflatedMarketState) = s1
  have hcongr : (update_candle_from_trade s1 tr tf).last_candle =
      (update_candle_from_trade s tr tf).last_candle ∧
      (update_candle_from_trade s1 tr tf).pending_candle =
      (update_candle_from_trade s tr tf).pending_candle :=
    update_candle_from_trade_candles_congr s1 s tr tf (by rw [← hs1])
      (by rw [← hs1])
  obtain ⟨-, -, -, -, -, -, -, -, hd9, hd10⟩ :=
    update_delta_candle_from_trade_frame (update_candle_from_trade s1 tr tf) tr tf
  split_ifs
  · exact ⟨hd9.trans hcongr.1, hd10.trans hcongr.2⟩
  · exact ⟨hd9.trans hcongr.1, hd10.trans hcongr.2⟩

/-- `update_candle_from_trade` with no current candle opens a fresh bucket. -/
theorem update_candle_from_trade_fresh (s : ConflatedMarketState)
    (tr : AggTradeEvent) (tf : MarketTimeframe) (hc : s.last_candle = none) :
    (update_candle_from_trade s tr tf).last_candle =
      some (UiCandle.from_trade
        (candle_bucket_open_time tr.trade_time tf.duration_ms)
        tr.price tr.quantity) ∧
    (update_candle_from_trade s tr tf).pending_candle =
      some (UiCandle.from_trade
        (candle_bucket_open_time tr.trade_time tf.duration_ms)
        tr.price tr.quantity) := by
  unfold update_candle_from_trade
  simp [hc]

/-- `update_candle_from_trade` on the current bucket folds the trade into the
current candle. -/
theorem update_candle_from_trade_same_bucket (s : ConflatedMarketState)
    (tr : AggTradeEvent) (tf : MarketTimeframe) (c : UiCandle)
    (hc : s.last_candle = some c)
    (hb : candle_bucket_open_time tr.trade_time tf.duration_ms = c.t) :
    (update_candle_from_trade s tr tf).last_candle =
      some (c.apply_trade tr.price tr.quantity) ∧
    (update_candle_from_trade s tr tf).pending_candle =
      some (c.apply_trade tr.price tr.quantity) := by
  unfold update_candle_from_trade
  simp only [hc]
  rw [if_neg (by rw [hb]; exact lt_irrefl _), if_pos hb]
  exact ⟨rfl, rfl⟩

/-- `update_candle_from_trade` on a strictly older bucket is the identity. -/
theorem update_candle_from_trade_stale (s : ConflatedMarketState)
    (tr : AggTradeEvent) (tf : MarketTimeframe) (c : UiCandle)
    (hc : s.last_candle = some c)
    (hb : candle_bucket_open_time tr.trade_time tf.duration_ms < c.t) :
    update_candle_from_trade s tr tf = s := by
  unfold update_candle_from_trade
  simp only [hc]
  rw [if_pos hb]

/-- `update_candle_from_trade` on a strictly newer bucket starts a fresh
candle. -/
theorem update_candle_from_trade_newer (s : ConflatedMarketState)
    (tr : AggTradeEvent) (tf : MarketTimeframe) (c : UiCandle)
    (hc : s.last_candle = some c)
    (hb : c.t < candle_bucket_open_time tr.trade_time tf.duration_ms) :
    (update_candle_from_trade s tr tf).last_candle =
      some (UiCandle.from_trade
        (candle_bucket_open_time tr.trade_time tf.duration_ms)
        tr.price tr.quantity) ∧
    (update_candle_from_trade s tr tf).pending_candle =
      some (UiCandle.from_trade
        (candle_bucket_open_time tr.trade_time tf.duration_ms)
        tr.price tr.quantity) := by
  unfold update_candle_from_trade
  simp only [hc]
  rw [if_neg (not_lt.mpr hb.le), if_neg (ne_of_gt hb)]
  exact ⟨rfl, rfl⟩

/-- A trade whose id is the successor of `last_agg_id` advances the id and
rolls the candle exactly as `update_candle_from_trade` does. -/
theorem apply_trade_event_step_candle (s : ConflatedMarketState)
    (tr : AggTradeEvent) (mn : ℚ) (tf : MarketTimeframe) (now : Int)
    (inst : Nat) (n : Nat) (hid : s.last_agg_id = some n)
    (htr : tr.aggregate_trade_id = n + 1) (hbound : n + 1 ≤ u64Max) :
    ((apply_trade_event s tr mn tf now inst).1).last_agg_id = some (n + 1) ∧
    ((apply_trade_event s tr mn tf now inst).1).last_candle =
      (update_candle_from_trade s tr tf).last_candle := by
  rw [apply_trade_event_next_id_eq_mutate s tr mn tf now inst n hid htr hbound]
  refine ⟨?_, (apply_trade_event_mutate_candles s tr mn tf now inst).1⟩
  rw [(apply_trade_event_mutate_ids s tr mn tf now inst).1, htr]

/-- The first trade on a state without `last_agg_id` records its id and rolls
the candle exactly as `update_candle_from_trade` does. -/
theorem apply_trade_event_first_candle (s : ConflatedMarketState)
    (tr : AggTradeEvent) (mn : ℚ) (tf : MarketTimeframe) (now : Int)
    (inst : Nat) (hid : s.last_agg_id = none) :
    ((apply_trade_event s tr mn tf now inst).1).last_agg_id =
      some tr.aggregate_trade_id ∧
    ((apply_trade_event s tr mn tf now inst).1).last_candle =
      (update_candle_from_trade s tr tf).last_candle := by
  have e : apply_trade_event s tr mn tf now inst =
      apply_trade_event_mutate s tr mn tf now inst := by
    unfold apply_trade_event
    simp only [hid]
  rw [e]
  exact ⟨(apply_trade_event_mutate_ids s tr mn tf now inst).1,
    (apply_trade_event_mutate_candles s tr mn tf now inst).1⟩

/-- Folding `apply_trade_event` over a list of trades (the producer's
repeated application), keeping only the state. -/
def apply_trade_events (s : ConflatedMarketState) (trades : List AggTradeEvent)
    (mn : ℚ) (tf : MarketTimeframe) (now : Int) (inst : Nat) :
    ConflatedMarketState :=
  trades.foldl (fun st tr => (apply_trade_event st tr mn tf now inst).1) s

/-- Folding `UiCandle::apply_trade` over a list of trades. -/
def candle_fold (c : UiCandle) (trades : List AggTradeEvent) : UiCandle :=
  trades.foldl (fun acc tr => acc.apply_trade tr.price tr.quantity) c

/-- `candle_fold` keeps the bucket open time. -/
theorem candle_fold_t (trades : List AggTradeEvent) :
    ∀ c : UiCandle, (candle_fold c trades).t = c.t := by
  induction trades with
  | nil => intro c; rfl
  | cons tr rest ih => intro c; exact ih (c.apply_trade tr.price tr.quantity)

/-- `candle_fold` keeps the open. -/
theorem candle_fold_o (trades : List AggTradeEvent) :
    ∀ c : UiCandle, (candle_fold c trades).o = c.o := by
  induction trades with
  | nil => intro c; rfl
  | cons tr rest ih => intro c; exact ih (c.apply_trade tr.price tr.quantity)

/-- `candle_fold` accumulates the high as a running maximum of prices. -/
theorem candle_fold_h (trades : List AggTradeEvent) :
    ∀ c : UiCandle,
      (candle_fold c trades).h = (trades.map (·.price)).foldl max c.h := by
  induction trades with
  | nil => intro c; rfl
  | cons tr rest ih =>
    intro c
    simpa [candle_fold, UiCandle.apply_trade] using
      ih (c.apply_trade tr.price tr.quantity)

/-- `candle_fold` accumulates the low as a running minimum of prices. -/
theorem candle_fold_l (trades : List AggTradeEvent) :
    ∀ c : UiCandle,
      (candle_fold c trades).l = (trades.map (·.price)).foldl min c.l := by
  induction trades with
  | nil => intro c; rfl
  | cons tr rest ih =>
    intro c
    simpa [candle_fold, UiCandle.apply_trade] using
      ih (c.apply_trade tr.price tr.quantity)

/-- `candle_fold`'s close is the last applied price. -/
theorem candle_fold_c (trades : List AggTradeEvent) :
    ∀ c : UiCandle,
      (candle_fold c trades).c =
        (trades.map (·.price)).foldl (fun _ p => p) c.c := by
  induction trades with
  | nil => intro c; rfl
  | cons tr rest ih =>
    intro c
    simpa [candle_fold, UiCandle.apply_trade] using
      ih (c.apply_trade tr.price tr.quantity)

/-- `candle_fold`'s volume is the initial volume plus the applied
quantities. -/
theorem candle_fold_v (trades : List AggTradeEvent) :
    ∀ c : UiCandle,
      (candle_fold c trades).v = c.v + (trades.map (·.quantity)).sum := by
  induction trades with
  | nil => intro c; simp [candle_fold]
  | cons tr rest ih =>
    intro c
    have := ih (c.apply_trade tr.price tr.quantity)
    simp only [candle_fold, List.foldl_cons, List.map_cons, List.sum_cons] at this ⊢
    rw [this]
    show c.v + tr.quantity + _ = _
    ring

/-- Structure extensionality for `UiCandle` by fields. -/
theorem uiCandle_eq_of_fields (a b : UiCandle) (ht : a.t = b.t) (ho : a.o = b.o)
    (hh : a.h = b.h) (hl : a.l = b.l) (hc : a.c = b.c) (hv : a.v = b.v) :
    a = b := by
  cases a
  cases b
  simp_all

/-- Applying consecutively-numbered trades of one bucket to a state that
already holds a candle of that bucket keeps folding the candle. -/
theorem apply_trade_events_same_bucket (mn : ℚ) (tf : MarketTimeframe)
    (now : Int) (inst : Nat) (B : Int) :
    ∀ (trades : List AggTradeEvent) (s : ConflatedMarketState) (n : Nat)
      (c : UiCandle),
      s.last_agg_id = some n → s.last_candle = some c → c.t = B →
      trades.map (·.aggregate_trade_id) = List.range' (n + 1) trades.length →
      n + trades.length ≤ u64Max →
      (∀ tr ∈ trades,
        candle_bucket_open_time tr.trade_time tf.duration_ms = B) →
      (apply_trade_events s trades mn tf now inst).last_agg_id =
        some (n + trades.length) ∧
      (apply_trade_events s trades mn tf now inst).last_candle =
        some (candle_fold c trades) := by
  intro trades
  induction trades with
  | nil =>
    intro s n c h1 h2 _ _ _ _
    exact ⟨by simpa [apply_trade_events] using h1,
      by simpa [apply_trade_events, candle_fold] using h2⟩
  | cons tr rest ih =>
    intro s n c h1 h2 hB hmap hbound hbuck
    simp only [List.map_cons, List.length_cons, List.range'_succ,
      List.cons.injEq] at hmap
    have hstep := apply_trade_event_step_candle s tr mn tf now inst n h1
      hmap.1 (by simp only [List.length_cons] at hbound; omega)
    have hcand := update_candle_from_trade_same_bucket s tr tf c h2
      ((hbuck tr (List.mem_cons_self tr rest)).trans hB.symm)
    have hrec := ih ((apply_trade_event s tr mn tf now inst).1) (n + 1)
      (c.apply_trade tr.price tr.quantity) hstep.1
      (hstep.2.trans hcand.1) hB hmap.2
      (by simp only [List.length_cons] at hbound; omega)
      (fun tr' htr' => hbuck tr' (List.mem_cons_of_mem tr htr'))
    have heq : apply_trade_events s (tr :: rest) mn tf now inst =
        apply_trade_events ((apply_trade_event s tr mn tf now inst).1) rest
          mn tf now inst := rfl
    rw [heq]
    refine ⟨?_, hrec.2⟩
    rw [hrec.1]
    simp only [List.length_cons]
    congr 1
    omega

/-- C2: consecutively-numbered trades of one bucket applied from a state with
no current candle build the candle `{t = bucket, o = first price, h = max
price, l = min price, c = last price, v = sum of quantities}`; a trade of a
strictly older bucket leaves the candle untouched, and a strictly newer
bucket starts a fresh candle `{o = h = l = c = price, v = qty}`. -/
theorem C2_candle_update_rules (mn : ℚ) (tf : MarketTimeframe) (now : Int)
    (inst : Nat) :
    (∀ (t0 : AggTradeEvent) (rest : List AggTradeEvent)
      (s : ConflatedMarketState),
      s.last_agg_id = none → s.last_candle = none →
      (t0 :: rest).map (·.aggregate_trade_id) =
        List.range' t0.aggregate_trade_id (t0 :: rest).length →
      t0.aggregate_trade_id + rest.length ≤ u64Max →
      (∀ tr ∈ t0 :: rest,
        candle_bucket_open_time tr.trade_time tf.duration_ms =
          candle_bucket_open_time t0.trade_time tf.duration_ms) →
      (apply_trade_events s (t0 :: rest) mn tf now inst).last_candle =
        some { t := candle_bucket_open_time t0.trade_time tf.duration_ms
               o := t0.price
               h := (rest.map (·.price)).foldl max t0.price
               l := (rest.map (·.price)).foldl min t0.price
               c := (rest.map (·.price)).foldl (fun _ p => p) t0.price
               v := t0.quantity + (rest.map (·.quantity)).sum }) ∧
    (∀ (s : ConflatedMarketState) (tr : AggTradeEvent) (c : UiCandle),
      s.last_candle = some c →
      candle_bucket_open_time tr.trade_time tf.duration_ms < c.t →
      ((apply_trade_event s tr mn tf now inst).1).last_candle = some c ∧
      ((apply_trade_event s tr mn tf now inst).1).pending_candle =
        s.pending_candle) ∧
    (∀ (s : ConflatedMarketState) (tr : AggTradeEvent) (c : UiCandle),
      s.last_candle = some c →
      c.t < candle_bucket_open_time tr.trade_time tf.duration_ms →
      (∃ e, (apply_trade_event s tr mn tf now inst).2 = .Applied e) →
      ((apply_trade_event s tr mn tf now inst).1).last_candle =
        some { t := candle_bucket_open_time tr.trade_time tf.duration_ms
               o := tr.price
               h := tr.price
               l := tr.price
               c := tr.price
               v := tr.quantity } ∧
      ((apply_trade_event s tr mn tf now inst).1).pending_candle =
        some { t := candle_bucket_open_time tr.trade_time tf.duration_ms
               o := tr.price
               h := tr.price
               l := tr.price
               c := tr.price
               v := tr.quantity }) := by
  refine ⟨?_, ?_, ?_⟩
  · intro t0 rest s hagg hcand hmap hbound hbuck
    simp only [List.map_cons, List.length_cons, List.range'_succ,
      List.cons.injEq] at hmap
    have hfirst := apply_trade_event_first_candle s t0 mn tf now inst hagg
    have hfresh := update_candle_from_trade_fresh s t0 tf hcand
    have hrec := apply_trade_events_same_bucket mn tf now inst
      (candle_bucket_open_time t0.trade_time tf.duration_ms) rest
      ((apply_trade_event s t0 mn tf now inst).1) t0.aggregate_trade_id
      (UiCandle.from_trade
        (candle_bucket_open_time t0.trade_time tf.duration_ms)
        t0.price t0.quantity)
      hfirst.1 (hfirst.2.trans hfresh.1) rfl hmap.2 hbound
      (fun tr' htr' => hbuck tr' (List.mem_cons_of_mem t0 htr'))
    have heq : apply_trade_events s (t0 :: rest) mn tf now inst =
        apply_trade_events ((apply_trade_event s t0 mn tf now inst).1) rest
          mn tf now inst := rfl
    rw [heq, hrec.2]
    refine congrArg some (uiCandle_eq_of_fields _ _ ?_ ?_ ?_ ?_ ?_ ?_)
    · exact candle_fold_t rest _
    · exact candle_fold_o rest _
    · exact candle_fold_h rest _
    · exact candle_fold_l rest _
    · exact candle_fold_c rest _
    · exact candle_fold_v rest _
  · intro s tr c hc hb
    have key : ∀ s' : ConflatedMarketState, s'.last_candle = s.last_candle →
        s'.pending_candle = s.pending_candle →
        ((apply_trade_event_mutate s' tr mn tf now inst).1).last_candle =
          some c ∧
        ((apply_trade_event_mutate s' tr mn tf now inst).1).pending_candle =
          s.pending_candle := by
      intro s' h1 h2
      have hm := apply_trade_event_mutate_candles s' tr mn tf now inst
      have hcg := update_candle_from_trade_candles_congr s' s tr tf h1 h2
      have hst := update_candle_from_trade_stale s tr tf c hc hb
      refine ⟨hm.1.trans (hcg.1.trans ?_), hm.2.trans (hcg.2.trans ?_)⟩
      · rw [hst]
        exact hc
      · rw [hst]
    unfold apply_trade_event
    rcases hid : s.last_agg_id with _ | n
    · exact key s rfl rfl
    · dsimp only
      split_ifs
      · exact ⟨hc, rfl⟩
      · exact ⟨hc, rfl⟩
      · exact key s rfl rfl
  · intro s tr c hc hb happlied
    have hm := apply_trade_event_mutate_candles s tr mn tf now inst
    have hnew := update_candle_from_trade_newer s tr tf c hc hb
    rw [apply_trade_event_applied_eq_mutate s tr mn tf now inst happlied]
    exact ⟨hm.1.trans hnew.1, hm.2.trans hnew.2⟩

/-- Witness for C2 at the spec's concrete scenario 4: trades
`(id=1, t=60100, p=100, q=0.2)` and `(id=2, t=60900, p=101, q=0.4)` at the
one-minute timeframe build the candle of bucket 60000. -/
theorem C2_candle_update_rules_witness :
    (ConflatedMarketState.default.last_agg_id = none ∧
      ConflatedMarketState.default.last_candle = none ∧
      ([sample_trade 1 60100 100 0.2 false,
        sample_trade 2 60900 101 0.4 false].map (·.aggregate_trade_id) =
        List.range' 1 2) ∧
      (1 + 1 ≤ u64Max) ∧
      (∀ tr ∈ [sample_trade 1 60100 100 0.2 false,
          sample_trade 2 60900 101 0.4 false],
        candle_bucket_open_time tr.trade_time MarketTimeframe.M1.duration_ms =
          candle_bucket_open_time 60100 MarketTimeframe.M1.duration_ms)) ∧
    (apply_trade_events ConflatedMarketState.default
        [sample_trade 1 60100 100 0.2 false, sample_trade 2 60900 101 0.4 false]
        1 .M1 0 0).last_candle =
      some { t := candle_bucket_open_time 60100 MarketTimeframe.M1.duration_ms
             o := 100
             h := ([sample_trade 2 60900 101 0.4 false].map (·.price)).foldl
               max 100
             l := ([sample_trade 2 60900 101 0.4 false].map (·.price)).foldl
               min 100
             c := ([sample_trade 2 60900 101 0.4 false].map (·.price)).foldl
               (fun _ p => p) 100
             v := (0.2 : ℚ) +
               ([sample_trade 2 60900 101 0.4 false].map (·.quantity)).sum } :=
  ⟨⟨rfl, rfl, by decide, by decide, by decide⟩,
    (C2_candle_update_rules 1 .M1 0 0).1 (sample_trade 1 60100 100 0.2 false)
      [sample_trade 2 60900 101 0.4 false] ConflatedMarketState.default
      rfl rfl (by decide) (by decide) (by decide)⟩

/-- `update_delta_candle_from_trade` with no current delta candle opens a
fresh bucket. -/
theorem update_delta_candle_from_trade_fresh (s : ConflatedMarketState)
    (tr : AggTradeEvent) (tf : MarketTimeframe)
    (hd : s.last_delta_candle = none) :
    (update_delta_candle_from_trade s tr tf).last_delta_candle =
      some (UiDeltaCandle.from_signed_volume
        (candle_bucket_open_time tr.trade_time tf.duration_ms)
        (tr.quantity * (tr.direction : ℚ)) tr.quantity) ∧
    (update_delta_candle_from_trade s tr tf).pending_delta_candle =
      some (UiDeltaCandle.from_signed_volume
        (candle_bucket_open_time tr.trade_time tf.duration_ms)
        (tr.quantity * (tr.direction : ℚ)) tr.quantity) := by
  unfold update_delta_candle_from_trade
  simp [hd]

/-- `update_delta_candle_from_trade` on the current bucket folds the signed
volume into the current delta candle. -/
theorem update_delta_candle_from_trade_same_bucket (s : ConflatedMarketState)
    (tr : AggTradeEvent) (tf : MarketTimeframe) (d : UiDeltaCandle)
    (hd : s.last_delta_candle = some d)
    (hb : candle_bucket_open_time tr.trade_time tf.duration_ms = d.t) :
    (update_delta_candle_from_trade s tr tf).last_delta_candle =
      some (d.apply_signed_volume (tr.quantity * (tr.direction : ℚ))
        tr.quantity) ∧
    (update_delta_candle_from_trade s tr tf).pending_delta_candle =
      some (d.apply_signed_volume (tr.quantity * (tr.direction : ℚ))
        tr.quantity) := by
  unfold update_delta_candle_from_trade
  simp only [hd]
  rw [if_neg (by rw [hb]; exact lt_irrefl _), if_pos hb]
  exact ⟨rfl, rfl⟩

/-- Folding `update_delta_candle_from_trade` over a list of trades (the
delta-candle update path of repeated trade application). -/
def update_delta_candles (s : ConflatedMarketState)
    (trades : List AggTradeEvent) (tf : MarketTimeframe) :
    ConflatedMarketState :=
  trades.foldl (fun st tr => update_delta_candle_from_trade st tr tf) s

/-- Folding `UiDeltaCandle::apply_signed_volume` over a list of trades. -/
def delta_fold (d : UiDeltaCandle) (trades : List AggTradeEvent) :
    UiDeltaCandle :=
  trades.foldl
    (fun acc tr =>
      acc.apply_signed_volume (tr.quantity * (tr.direction : ℚ)) tr.quantity) d

/-- The spec's "max of 0 and all running values of c", as the running maximum
of an accumulating sum started at high `h` and cumulative value `c`. -/
def run_max_from (h c : ℚ) : List ℚ → ℚ
  | [] => h
  | x :: xs => run_max_from (max h (c + x)) (c + x) xs

/-- The spec's "min of 0 and all running values of c", as the running minimum
of an accumulating sum started at low `l` and cumulative value `c`. -/
def run_min_from (l c : ℚ) : List ℚ → ℚ
  | [] => l
  | x :: xs => run_min_from (min l (c + x)) (c + x) xs

/-- `delta_fold` keeps the bucket open time. -/
theorem delta_fold_t (trades : List AggTradeEvent) :
    ∀ d : UiDeltaCandle, (delta_fold d trades).t = d.t := by
  induction trades with
  | nil => intro d; rfl
  | cons tr rest ih =>
    intro d
    exact ih (d.apply_signed_volume (tr.quantity * (tr.direction : ℚ))
      tr.quantity)

/-- `delta_fold` keeps the open. -/
theorem delta_fold_o (trades : List AggTradeEvent) :
    ∀ d : UiDeltaCandle, (delta_fold d trades).o = d.o := by
  induction trades with
  | nil => intro d; rfl
  | cons tr rest ih =>
    intro d
    exact ih (d.apply_signed_volume (tr.quantity * (tr.direction : ℚ))
      tr.quantity)

/-- `delta_fold`'s close accumulates the signed volumes. -/
theorem delta_fold_c (trades : List AggTradeEvent) :
    ∀ d : UiDeltaCandle,
      (delta_fold d trades).c =
        d.c + (trades.map (fun tr => tr.quantity * (tr.direction : ℚ))).sum := by
  induction trades with
  | nil => intro d; simp [delta_fold]
  | cons tr rest ih =>
    intro d
    have := ih (d.apply_signed_volume (tr.quantity * (tr.direction : ℚ))
      tr.quantity)
    simp only [delta_fold, List.foldl_cons, List.map_cons, List.sum_cons]
      at this ⊢
    rw [this]
    show d.c + _ + _ = _
    ring

/-- `delta_fold`'s high is the running maximum of the running close. -/
theorem delta_fold_h (trades : List AggTradeEvent) :
    ∀ d : UiDeltaCandle,
      (delta_fold d trades).h =
        run_max_from d.h d.c
          (trades.map (fun tr => tr.quantity * (tr.direction : ℚ))) := by
  induction trades with
  | nil => intro d; rfl
  | cons tr rest ih =>
    intro d
    exact ih (d.apply_signed_volume (tr.quantity * (tr.direction : ℚ))
      tr.quantity)

/-- `delta_fold`'s low is the running minimum of the running close. -/
theorem delta_fold_l (trades : List AggTradeEvent) :
    ∀ d : UiDeltaCandle,
      (delta_fold d trades).l =
        run_min_from d.l d.c
          (trades.map (fun tr => tr.quantity * (tr.direction : ℚ))) := by
  induction trades with
  | nil => intro d; rfl
  | cons tr rest ih =>
    intro d
    exact ih (d.apply_signed_volume (tr.quantity * (tr.direction : ℚ))
      tr.quantity)

/-- `delta_fold`'s volume accumulates the clipped absolute volumes. -/
theorem delta_fold_v (trades : List AggTradeEvent) :
    ∀ d : UiDeltaCandle,
      (delta_fold d trades).v =
        d.v + (trades.map (fun tr => max tr.quantity 0)).sum := by
  induction trades with
  | nil => intro d; simp [delta_fold]
  | cons tr rest ih =>
    intro d
    have := ih (d.apply_signed_volume (tr.quantity * (tr.direction : ℚ))
      tr.quantity)
    simp only [delta_fold, List.foldl_cons, List.map_cons, List.sum_cons]
      at this ⊢
    rw [this]
    show d.v + _ + _ = _
    ring

/-- Structure extensionality for `UiDeltaCandle` by fields. -/
theorem uiDeltaCandle_eq_of_fields (a b : UiDeltaCandle) (ht : a.t = b.t)
    (ho : a.o = b.o) (hh : a.h = b.h) (hl : a.l = b.l) (hc : a.c = b.c)
    (hv : a.v = b.v) : a = b := by
  cases a
  cases b
  simp_all

/-- Folding same-bucket trades through the delta-candle update path keeps
folding the delta candle. -/
theorem update_delta_candles_same_bucket (tf : MarketTimeframe) (B : Int) :
    ∀ (trades : List AggTradeEvent) (s : ConflatedMarketState)
      (d : UiDeltaCandle),
      s.last_delta_candle = some d → d.t = B →
      (∀ tr ∈ trades,
        candle_bucket_open_time tr.trade_time tf.duration_ms = B) →
      (update_delta_candles s trades tf).last_delta_candle =
        some (delta_fold d trades) := by
  intro trades
  induction trades with
  | nil =>
    intro s d h1 _ _
    simpa [update_delta_candles, delta_fold] using h1
  | cons tr rest ih =>
    intro s d h1 hB hbuck
    have hstep := update_delta_candle_from_trade_same_bucket s tr tf d h1
      ((hbuck tr (List.mem_cons_self tr rest)).trans hB.symm)
    have hrec := ih (update_delta_candle_from_trade s tr tf)
      (d.apply_signed_volume (tr.quantity * (tr.direction : ℚ)) tr.quantity)
      hstep.1 hB (fun tr' htr' => hbuck tr' (List.mem_cons_of_mem tr htr'))
    exact hrec

/-- C5: a delta candle built by applying same-bucket trades with non-negative
quantities from a state with no current delta candle has `o = 0`,
`c = cumulative signed volume`, `h`/`l` the running max/min of the cumulative
close against 0, and `v = cumulative absolute volume`. -/
theorem C5_delta_candle_running_extrema (tf : MarketTimeframe)
    (t0 : AggTradeEvent) (rest : List AggTradeEvent)
    (s : ConflatedMarketState) (hnone : s.last_delta_candle = none)
    (hq : ∀ tr ∈ t0 :: rest, 0 ≤ tr.quantity)
    (hbuck : ∀ tr ∈ t0 :: rest,
      candle_bucket_open_time tr.trade_time tf.duration_ms =
        candle_bucket_open_time t0.trade_time tf.duration_ms) :
    (update_delta_candles s (t0 :: rest) tf).last_delta_candle =
      some { t := candle_bucket_open_time t0.trade_time tf.duration_ms
             o := 0
             h := run_max_from 0 0
               ((t0 :: rest).map (fun tr => tr.quantity * (tr.direction : ℚ)))
             l := run_min_from 0 0
               ((t0 :: rest).map (fun tr => tr.quantity * (tr.direction : ℚ)))
             c := ((t0 :: rest).map
               (fun tr => tr.quantity * (tr.direction : ℚ))).sum
             v := ((t0 :: rest).map (·.quantity)).sum } := by
  have hfresh := update_delta_candle_from_trade_fresh s t0 tf hnone
  have heq : update_delta_candles s (t0 :: rest) tf =
      update_delta_candles (update_delta_candle_from_trade s t0 tf) rest tf :=
    rfl
  have hrec := update_delta_candles_same_bucket tf
    (candle_bucket_open_time t0.trade_time tf.duration_ms) rest
    (update_delta_candle_from_trade s t0 tf)
    (UiDeltaCandle.from_signed_volume
      (candle_bucket_open_time t0.trade_time tf.duration_ms)
      (t0.quantity * (t0.direction : ℚ)) t0.quantity)
    hfresh.1 rfl (fun tr' htr' => hbuck tr' (List.mem_cons_of_mem t0 htr'))
  rw [heq, hrec]
  refine congrArg some (uiDeltaCandle_eq_of_fields _ _ ?_ ?_ ?_ ?_ ?_ ?_)
  · exact delta_fold_t rest _
  · exact delta_fold_o rest _
  · rw [delta_fold_h rest _]
    show run_max_from (max 0 (t0.quantity * (t0.direction : ℚ)))
      (t0.quantity * (t0.direction : ℚ)) _ = _
    simp only [List.map_cons, run_max_from, zero_add]
  · rw [delta_fold_l rest _]
    show run_min_from (min 0 (t0.quantity * (t0.direction : ℚ)))
      (t0.quantity * (t0.direction : ℚ)) _ = _
    simp only [List.map_cons, run_min_from, zero_add]
  · rw [delta_fold_c rest _]
    show t0.quantity * (t0.direction : ℚ) + _ = _
    simp only [List.map_cons, List.sum_cons]
  · rw [delta_fold_v rest _]
    have hmap : rest.map (fun tr => max tr.quantity 0) =
        rest.map (·.quantity) :=
      List.map_congr_left fun tr htr =>
        max_eq_left (hq tr (List.mem_cons_of_mem t0 htr))
    show max t0.quantity 0 + _ = _
    rw [hmap, max_eq_left (hq t0 (List.mem_cons_self t0 rest))]
    simp

/-- Witness for C5 at two concrete trades: a buy of 2 then a sell of 3 in the
same minute bucket. -/
theorem C5_delta_candle_running_extrema_witness :
    (ConflatedMarketState.default.last_delta_candle = none ∧
      (∀ tr ∈ [sample_trade 1 60000 1 2 false, sample_trade 2 60010 1 3 true],
        (0 : ℚ) ≤ tr.quantity) ∧
      (∀ tr ∈ [sample_trade 1 60000 1 2 false, sample_trade 2 60010 1 3 true],
        candle_bucket_open_time tr.trade_time MarketTimeframe.M1.duration_ms =
          candle_bucket_open_time 60000 MarketTimeframe.M1.duration_ms)) ∧
    (update_delta_candles ConflatedMarketState.default
        [sample_trade 1 60000 1 2 false, sample_trade 2 60010 1 3 true]
        .M1).last_delta_candle =
      some { t := candle_bucket_open_time 60000 MarketTimeframe.M1.duration_ms
             o := 0
             h := run_max_from 0 0
               ([sample_trade 1 60000 1 2 false,
                 sample_trade 2 60010 1 3 true].map
                 (fun tr => tr.quantity * (tr.direction : ℚ)))
             l := run_min_from 0 0
               ([sample_trade 1 60000 1 2 false,
                 sample_trade 2 60010 1 3 true].map
                 (fun tr => tr.quantity * (tr.direction : ℚ)))
             c := ([sample_trade 1 60000 1 2 false,
               sample_trade 2 60010 1 3 true].map
               (fun tr => tr.quantity * (tr.direction : ℚ))).sum
             v := ([sample_trade 1 60000 1 2 false,
               sample_trade 2 60010 1 3 true].map (·.quantity)).sum } :=
  ⟨⟨rfl, by norm_num [List.forall_mem_cons, sample_trade], by decide⟩,
    C5_delta_candle_running_extrema .M1 (sample_trade 1 60000 1 2 false)
      [sample_trade 2 60010 1 3 true] ConflatedMarketState.default rfl
      (by norm_num [List.forall_mem_cons, sample_trade]) (by decide)⟩

/-- States reachable from the fresh `ConflatedMarketState` through the
pipeline's three state operations: live trade application, snapshot resync
and frame draining. -/
inductive Reachable : ConflatedMarketState → Prop
  | init : Reachable ConflatedMarketState.default
  | trade (s : ConflatedMarketState) (tr : AggTradeEvent) (mn : ℚ)
      (tf : MarketTimeframe) (now : Int) (inst : Nat) :
      Reachable s → Reachable (apply_trade_event s tr mn tf now inst).1
  | snapshot (s : ConflatedMarketState) (id : Nat) (price : ℚ) :
      Reachable s → Reachable (apply_snapshot s id price)
  | drain (s : ConflatedMarketState) (t : Nat) :
      Reachable s → Reachable (drain_market_frame s t).1

/-- The tick-accumulator invariant: with no pending price, volume and
direction are zero. -/
def TickAccumInv (s : ConflatedMarketState) : Prop :=
  s.pending_price = none → s.pending_volume = 0 ∧ s.pending_direction = 0

/-- `apply_trade_event` either rejects the trade, leaving the state as is, or
runs its mutating tail. -/
theorem apply_trade_event_state_cases (s : ConflatedMarketState)
    (tr : AggTradeEvent) (mn : ℚ) (tf : MarketTimeframe) (now : Int)
    (inst : Nat) :
    (apply_trade_event s tr mn tf now inst).1 = s ∨
    (apply_trade_event s tr mn tf now inst).1 =
      (apply_trade_event_mutate s tr mn tf now inst).1 := by
  unfold apply_trade_event
  rcases s.last_agg_id with _ | n
  · right
    rfl
  · dsimp only
    split_ifs
    · left
      rfl
    · left
      rfl
    · right
      rfl

/-- The mutating tail preserves the tick-accumulator invariant. -/
theorem apply_trade_event_mutate_tick_inv (s : ConflatedMarketState)
    (tr : AggTradeEvent) (mn : ℚ) (tf : MarketTimeframe) (now : Int)
    (inst : Nat) (ih : TickAccumInv s) :
    TickAccumInv (apply_trade_event_mutate s tr mn tf now inst).1 := by
  intro hp
  rcases le_or_lt mn tr.notional with h | h
  · have := (apply_trade_event_mutate_eligible s tr mn tf now inst h).2.1
    rw [this] at hp
    exact absurd hp (by simp)
  · obtain ⟨-, h1, h2, h3, -⟩ :=
      apply_trade_event_mutate_ineligible s tr mn tf now inst h
    rw [h1] at hp
    rw [h2, h3]
    exact ih hp

/-- Field behaviour of `drain_market_frame` under the tick invariant: the
drained state always has a zeroed accumulator and cleared pending candles,
and `None` is returned exactly when nothing was pending. -/
theorem drain_market_frame_fields (s : ConflatedMarketState) (t : Nat)
    (ih : TickAccumInv s) :
    (drain_market_frame s t).1.pending_volume = 0 ∧
    (drain_market_frame s t).1.pending_direction = 0 ∧
    (drain_market_frame s t).1.pending_candle = none ∧
    (drain_market_frame s t).1.pending_delta_candle = none ∧
    (drain_market_frame s t).1.pending_price = none ∧
    ((drain_market_frame s t).2 = none ↔
      s.pending_price = none ∧ s.pending_candle = none ∧
        s.pending_delta_candle = none) := by
  unfold drain_market_frame drain_ui_tick drain_ui_candle drain_ui_delta_candle
  rcases hp : s.pending_price with _ | p
  · obtain ⟨hv, hd⟩ := ih hp
    simp only [hp]
    split_ifs with hcond
    · exact ⟨hv, hd, rfl, rfl, by simp [hp], by simp [hcond.2.1, hcond.2.2]⟩
    · refine ⟨hv, hd, rfl, rfl, by simp [hp], ?_⟩
      constructor
      · intro hnone
        exact absurd hnone (by simp)
      · intro hall
        exact absurd ⟨by trivial, hall.2.1, hall.2.2⟩ hcond
  · simp only [hp]
    rw [if_neg (by simp)]
    refine ⟨rfl, rfl, rfl, rfl, rfl, ?_⟩
    simp [hp]

/-- Every reachable state satisfies the tick-accumulator invariant. -/
theorem reachable_tick_inv : ∀ {s : ConflatedMarketState},
    Reachable s → TickAccumInv s := by
  intro s h
  induction h with
  | init => intro _; exact ⟨rfl, rfl⟩
  | trade s tr mn tf now inst _ ih =>
    rcases apply_trade_event_state_cases s tr mn tf now inst with h | h
    · rw [h]
      exact ih
    · rw [h]
      exact apply_trade_event_mutate_tick_inv s tr mn tf now inst ih
  | snapshot s id price _ ih => intro _; exact ⟨rfl, rfl⟩
  | drain s t _ ih =>
    intro hp
    obtain ⟨h1, h2, -, -, -, -⟩ := drain_market_frame_fields s t ih
    exact ⟨h1, h2⟩

/-- C4: on every reachable state, `drain_market_frame` returns `None` exactly
when the pending tick, pending candle and pending delta candle are all
empty, and after draining the pending tick volume and direction are zero and
both pending candles are empty. -/
theorem C4_drain_frame_none_iff_reset (s : ConflatedMarketState) (t : Nat)
    (h : Reachable s) :
    ((drain_market_frame s t).2 = none ↔
      s.pending_price = none ∧ s.pending_candle = none ∧
        s.pending_delta_candle = none) ∧
    (drain_market_frame s t).1.pending_volume = 0 ∧
    (drain_market_frame s t).1.pending_direction = 0 ∧
    (drain_market_frame s t).1.pending_candle = none ∧
    (drain_market_frame s t).1.pending_delta_candle = none := by
  obtain ⟨h1, h2, h3, h4, -, h6⟩ :=
    drain_market_frame_fields s t (reachable_tick_inv h)
  exact ⟨h6, h1, h2, h3, h4⟩

/-- Witness for C4 at the initial state. -/
theorem C4_drain_frame_none_iff_reset_witness :
    Reachable ConflatedMarketState.default ∧
    (((drain_market_frame ConflatedMarketState.default 0).2 = none ↔
      ConflatedMarketState.default.pending_price = none ∧
        ConflatedMarketState.default.pending_candle = none ∧
        ConflatedMarketState.default.pending_delta_candle = none) ∧
    (drain_market_frame ConflatedMarketState.default 0).1.pending_volume = 0 ∧
    (drain_market_frame ConflatedMarketState.default 0).1.pending_direction = 0 ∧
    (drain_market_frame ConflatedMarketState.default 0).1.pending_candle = none ∧
    (drain_market_frame ConflatedMarketState.default 0).1.pending_delta_candle =
      none) :=
  ⟨Reachable.init,
    C4_drain_frame_none_iff_reset ConflatedMarketState.default 0 Reachable.init⟩

/-- C7 counterexample: one page holding the same open time twice flows
through the paginator unchanged — the final list keeps both entries, so it is
not deduped by open_time (and the claimed final sort/dedupe step does not
exist in the loop). -/
theorem C7_counterexample :
    fetch_klines_history_bundle 2
        [[{ open_time := 5, o := 0, h := 0, l := 0, c := 0, v := 0,
            taker_buy_volume := 0 },
          { open_time := 5, o := 0, h := 0, l := 0, c := 0, v := 0,
            taker_buy_volume := 0 }]] =
      some ([{ t := 5, o := 0, h := 0, l := 0, c := 0, v := 0 },
             { t := 5, o := 0, h := 0, l := 0, c := 0, v := 0 }],
            [{ t := 5, o := 0, h := 0, l := 0, c := 0, v := 0 },
             { t := 5, o := 0, h := 0, l := 0, c := 0, v := 0 }]) ∧
    ¬ List.Pairwise (fun a b : UiCandle => a.t ≠ b.t)
        [{ t := 5, o := 0, h := 0, l := 0, c := 0, v := 0 },
         { t := 5, o := 0, h := 0, l := 0, c := 0, v := 0 }] := by
  constructor
  · norm_num [fetch_klines_history_bundle, fetch_klines_loop, convert_klines,
      kline_to_domain_pair, BINANCE_MAX_KLINES_PER_REQUEST]
  · simp [List.pairwise_cons]

/-- Conversion keeps the open time on the candle leg. -/
theorem kline_to_domain_pair_t (k : KlineWire) (c : UiCandle)
    (d : UiDeltaCandle) (h : kline_to_domain_pair k = some (c, d)) :
    c.t = k.open_time := by
  unfold kline_to_domain_pair at h
  split_ifs at h
  simp only [Option.some.injEq, Prod.mk.injEq] at h
  rw [← h.1]

/-- `convert_klines` maps open times to candle open times in order. -/
theorem convert_klines_t (ks : List KlineWire) :
    ∀ l : List (UiCandle × UiDeltaCandle), convert_klines ks = some l →
      l.map (fun cd => cd.1.t) = ks.map (·.open_time) := by
  induction ks with
  | nil =>
    intro l h
    simp only [convert_klines, Option.some.injEq] at h
    subst h
    rfl
  | cons k ks ih =>
    intro l h
    unfold convert_klines at h
    rcases h1 : kline_to_domain_pair k with _ | cd
    · rw [h1] at h
      exact absurd h (by simp)
    · rw [h1] at h
      rcases h2 : convert_klines ks with _ | rest
      · rw [h2] at h
        exact absurd h (by simp)
      · rw [h2] at h
        simp only [Option.some.injEq] at h
        subst h
        simp only [List.map_cons]
        rw [kline_to_domain_pair_t k cd.1 cd.2 (by rw [h1]), ih rest h2]

/-- The open time of any candle produced from a page is the open time of one
of the page's klines. -/
theorem convert_klines_candle_mem (page : List KlineWire)
    (converted : List (UiCandle × UiDeltaCandle))
    (hconv : convert_klines page.reverse = some converted) (b : UiCandle)
    (hb : b ∈ converted.map Prod.fst) : ∃ k ∈ page, b.t = k.open_time := by
  have hmt : (converted.map Prod.fst).map UiCandle.t =
      page.reverse.map (·.open_time) := by
    rw [List.map_map]
    exact convert_klines_t page.reverse converted hconv
  have hmem : b.t ∈ page.reverse.map (·.open_time) := by
    rw [← hmt]
    exact List.mem_map_of_mem UiCandle.t hb
  obtain ⟨k, hk, hkeq⟩ := List.mem_map.mp hmem
  exact ⟨k, List.mem_reverse.mp hk, hkeq.symm⟩

/-- The pagination loop keeps the newest-first candle accumulator strictly
descending in open time, provided every page is strictly ascending and each
later page is strictly older than the page before it. -/
theorem fetch_klines_loop_sorted (target : Nat) :
    ∀ (pages : List (List KlineWire)) (cr : List UiCandle)
      (dr : List UiDeltaCandle) (po : Option Int)
      (out : List UiCandle × List UiDeltaCandle),
      (∀ p ∈ pages, List.Chain' (fun a b => a.open_time < b.open_time) p) →
      List.Chain' (fun p q => ∀ a ∈ p, ∀ b ∈ q, b.open_time < a.open_time)
        pages →
      List.Pairwise (fun a b : UiCandle => b.t < a.t) cr →
      (∀ c ∈ cr, ∀ p ∈ pages.take 1, ∀ k ∈ p, k.open_time < c.t) →
      fetch_klines_loop target pages cr dr po = some out →
      List.Pairwise (fun a b : UiCandle => b.t < a.t) out.1 := by
  intro pages
  induction pages with
  | nil =>
    intro cr dr po out _ _ hcr _ hrun
    simp only [fetch_klines_loop, Option.some.injEq] at hrun
    rw [← hrun]
    exact hcr
  | cons page rest ih =>
    intro cr dr po out hasc hchain hcr hlink hrun
    unfold fetch_klines_loop at hrun
    dsimp only at hrun
    by_cases h0 : min (target - cr.length) BINANCE_MAX_KLINES_PER_REQUEST = 0
    · rw [if_pos h0] at hrun
      simp only [Option.some.injEq] at hrun
      rw [← hrun]
      exact hcr
    · rw [if_neg h0] at hrun
      rcases hpage0 : page with _ | ⟨k0, ktl⟩
      · subst hpage0
        dsimp only at hrun
        simp only [Option.some.injEq] at hrun
        rw [← hrun]
        exact hcr
      · subst hpage0
        rcases hconv : convert_klines (k0 :: ktl).reverse with _ | converted
        · rw [hconv] at hrun
          dsimp only at hrun
          exact absurd hrun (by simp)
        · rw [hconv] at hrun
          dsimp only at hrun
          have hpw_page : (k0 :: ktl).Pairwise
              (fun a b => a.open_time < b.open_time) :=
            (@List.chain'_iff_pairwise KlineWire
                (fun a b => a.open_time < b.open_time)
                ⟨fun a b c h1 h2 => lt_trans h1 h2⟩ (k0 :: ktl)).mp
              (hasc (k0 :: ktl) (List.mem_cons_self (k0 :: ktl) rest))
          have hdesc_ints : ((k0 :: ktl).reverse.map (·.open_time)).Pairwise
              (fun x y : Int => y < x) :=
            List.pairwise_map.mpr (List.pairwise_reverse.mpr hpw_page)
          have hc_pw : (converted.map Prod.fst).Pairwise
              (fun a b : UiCandle => b.t < a.t) := by
            have hmt : (converted.map Prod.fst).map UiCandle.t =
                (k0 :: ktl).reverse.map (·.open_time) := by
              rw [List.map_map]
              exact convert_klines_t (k0 :: ktl).reverse converted hconv
            have := hmt ▸ hdesc_ints
            exact List.pairwise_map.mp this
          have hcross : ∀ a ∈ cr, ∀ b ∈ converted.map Prod.fst, b.t < a.t := by
            intro a ha b hb
            obtain ⟨k, hk, hkeq⟩ :=
              convert_klines_candle_mem (k0 :: ktl) converted hconv b hb
            rw [hkeq]
            exact hlink a ha (k0 :: ktl) (by simp) k hk
          have hcr2 : (cr ++ converted.map Prod.fst).Pairwise
              (fun a b : UiCandle => b.t < a.t) :=
            List.pairwise_append.mpr ⟨hcr, hc_pw, hcross⟩
          split_ifs at hrun
          · simp only [Option.some.injEq] at hrun
            rw [← hrun]
            exact hcr2
          · simp only [Option.some.injEq] at hrun
            rw [← hrun]
            exact hcr2
          · simp only [Option.some.injEq] at hrun
            rw [← hrun]
            exact hcr2
          · simp only [Option.some.injEq] at hrun
            rw [← hrun]
            exact hcr2
          · refine ih (cr ++ converted.map Prod.fst) (dr ++ converted.map Prod.snd)
              (some k0.open_time) out
              (fun p hp => hasc p (List.mem_cons_of_mem (k0 :: ktl) hp))
              hchain.tail hcr2 ?_ hrun
            intro c hc p hp k hk
            rcases hrest : rest with _ | ⟨q, rest'⟩
            · rw [hrest] at hp
              simp at hp
            · rw [hrest] at hp
              have hpq : p = q := by simpa using hp
              subst hpq
              rw [hrest] at hchain
              have hrel : ∀ a ∈ k0 :: ktl, ∀ b ∈ p, b.open_time < a.open_time :=
                (List.chain'_cons.mp hchain).1
              rcases List.mem_append.mp hc with hcl | hcr'
              · have h1 : k.open_time < k0.open_time :=
                  hrel k0 (List.mem_cons_self k0 ktl) k hk
                have h2 : k0.open_time < c.t :=
                  hlink c hcl (k0 :: ktl) (by simp)
                    k0 (List.mem_cons_self k0 ktl)
                exact lt_trans h1 h2
              · obtain ⟨kc, hkc, hkceq⟩ :=
                  convert_klines_candle_mem (k0 :: ktl) converted hconv c hcr'
                rw [hkceq]
                exact hrel kc hkc k hk

/-- C7 amended: when every page returned by the kline endpoint is strictly
ascending by open_time and each later page is strictly older than the page
before it (as when the exchange honours `endTime`), the paginator's final
candle list is strictly ascending by open_time (hence sorted and free of
duplicate open times), holds at most `target` entries, and is a suffix of the
full ascending fetched list — truncation drops entries from the oldest
side. -/
theorem C7_paginator_sorted_when_pages_ordered (target : Nat)
    (pages : List (List KlineWire)) (out : List UiCandle × List UiDeltaCandle)
    (hasc : ∀ p ∈ pages, List.Chain' (fun a b => a.open_time < b.open_time) p)
    (hchain : List.Chain'
      (fun p q => ∀ a ∈ p, ∀ b ∈ q, b.open_time < a.open_time) pages)
    (hout : fetch_klines_history_bundle target pages = some out) :
    List.Pairwise (fun a b : UiCandle => a.t < b.t) out.1 ∧
    out.1.length ≤ target ∧
    ∃ full, fetch_klines_loop target pages [] [] none = some full ∧
      out.1 <:+ full.1.reverse := by
  unfold fetch_klines_history_bundle at hout
  by_cases h0 : target = 0
  · rw [if_pos h0] at hout
    simp only [Option.some.injEq] at hout
    rw [← hout]
    subst h0
    refine ⟨List.Pairwise.nil, le_refl _, ?_⟩
    rcases pages with _ | ⟨page, rest⟩
    · exact ⟨([], []), rfl, List.nil_suffix⟩
    · refine ⟨([], []), ?_, List.nil_suffix⟩
      unfold fetch_klines_loop
      rfl
  · rw [if_neg h0] at hout
    rcases hloop : fetch_klines_loop target pages [] [] none with _ | full
    · rw [hloop] at hout
      exact absurd hout (by simp)
    · rw [hloop] at hout
      simp only [Option.map_some', Option.some.injEq] at hout
      have hfull : List.Pairwise (fun a b : UiCandle => b.t < a.t) full.1 :=
        fetch_klines_loop_sorted target pages [] [] none full
          hasc hchain List.Pairwise.nil (by simp) hloop
      have htake : List.Pairwise (fun a b : UiCandle => b.t < a.t)
          (full.1.take target) :=
        List.Pairwise.sublist (List.take_sublist target full.1) hfull
      refine ⟨?_, ?_, full, rfl, ?_⟩
      · rw [← hout]
        exact List.pairwise_reverse.mpr htake
      · rw [← hout]
        simp only [List.length_reverse, List.length_take]
        exact min_le_left _ _
      · rw [← hout]
        refine ⟨(full.1.drop target).reverse, ?_⟩
        rw [← List.reverse_append, List.take_append_drop]

/-- A kline fixture: open time `t`, every other component zero. -/
def kw (t : Int) : KlineWire :=
  { open_time := t, o := 0, h := 0, l := 0, c := 0, v := 0, taker_buy_volume := 0 }

/-- A candle fixture: open time `t`, every other component zero. -/
def cw (t : Int) : UiCandle :=
  { t := t, o := 0, h := 0, l := 0, c := 0, v := 0 }

/-- A delta-candle fixture: open time `t`, every other component zero. -/
def dw (t : Int) : UiDeltaCandle :=
  { t := t, o := 0, h := 0, l := 0, c := 0, v := 0 }

/-- Witness for C7 amended: two well-ordered pages `[3,5]` then `[1,2]` with
target 3 — the paginator stops after the short first page and returns the
ascending pair `[3,5]`. -/
theorem C7_paginator_sorted_when_pages_ordered_witness :
    ((∀ p ∈ [[kw 3, kw 5], [kw 1, kw 2]],
        List.Chain' (fun a b => a.open_time < b.open_time) p) ∧
      List.Chain' (fun p q => ∀ a ∈ p, ∀ b ∈ q, b.open_time < a.open_time)
        [[kw 3, kw 5], [kw 1, kw 2]] ∧
      fetch_klines_history_bundle 3 [[kw 3, kw 5], [kw 1, kw 2]] =
        some ([cw 3, cw 5], [dw 3, dw 5])) ∧
    (List.Pairwise (fun a b : UiCandle => a.t < b.t) [cw 3, cw 5] ∧
      [cw 3, cw 5].length ≤ 3 ∧
      ∃ full, fetch_klines_loop 3 [[kw 3, kw 5], [kw 1, kw 2]] [] [] none =
          some full ∧
        [cw 3, cw 5] <:+ full.1.reverse) := by
  have hasc : ∀ p ∈ [[kw 3, kw 5], [kw 1, kw 2]],
      List.Chain' (fun a b => a.open_time < b.open_time) p := by
    simp [List.forall_mem_cons, List.chain'_cons, kw]
  have hchain : List.Chain'
      (fun p q => ∀ a ∈ p, ∀ b ∈ q, b.open_time < a.open_time)
      [[kw 3, kw 5], [kw 1, kw 2]] := by
    simp [List.chain'_cons, List.forall_mem_cons, kw]
  have hout : fetch_klines_history_bundle 3 [[kw 3, kw 5], [kw 1, kw 2]] =
      some ([cw 3, cw 5], [dw 3, dw 5]) := by
    norm_num [fetch_klines_history_bundle, fetch_klines_loop, convert_klines,
      kline_to_domain_pair, BINANCE_MAX_KLINES_PER_REQUEST, kw, cw, dw]
  exact ⟨⟨hasc, hchain, hout⟩,
    C7_paginator_sorted_when_pages_ordered 3 _ _ hasc hchain hout⟩

end MarketPipeline
